import Mathlib

/-!
# Verification of the claude-conversation-backup core

A shallow embedding, in Lean 4, of the session-identity resolution,
reconciliation and duplicate-consolidation core of the repository
(`claude-to-markdown-v3.py` and `migrate-duplicates.py`), together with
proofs and refutations of the frozen specification claims.

Conventions of the embedding:
* Python strings are Lean `String`s; most primitives are defined by
  structural recursion over `String.data` (`List Char`).
* Python `json.loads` is embedded as `jsonLoads`.  JSON numbers are
  modelled as integers; fractional/exponent literals are outside the
  modelled input grammar (such lines count as unparseable).
* Python exceptions are modelled with `Option`/`Except`: a raised
  exception that the source does not catch locally surfaces as `none` /
  `.error`.
* `datetime.fromisoformat` is embedded as `pyFromIso`, and the wall
  clock (`datetime.now()`) is passed in explicitly as a `PyDateTime`
  parameter, so that time-dependence is visible in the statements.
* Filesystem state (for the consolidator) is an association list from
  absolute paths (`List String` of components) to file contents
  (`List String` of lines).
-/

set_option maxRecDepth 200000

namespace CCB

/-! ## Basic string primitives (Python semantics) -/

/-- Python's whitespace set for `str.strip()` (ASCII portion). -/
def isPyWS (c : Char) : Bool :=
  c = ' ' ∨ c = '\t' ∨ c = '\n' ∨ c = '\x0d' ∨ c = '\x0b' ∨ c = '\x0c'

def dropLeadingWS : List Char → List Char
  | [] => []
  | c :: cs => if isPyWS c then dropLeadingWS cs else c :: cs

/-- `str.strip()` with no argument: strip leading and trailing whitespace. -/
def pyStrip (s : String) : String :=
  ⟨(dropLeadingWS (dropLeadingWS s.data.reverse).reverse)⟩

/-- Does `needle` occur as a prefix of `hay`? -/
def listIsPrefix : List Char → List Char → Bool
  | [], _ => true
  | _ :: _, [] => false
  | a :: as, b :: bs => a = b && listIsPrefix as bs

/-- Python `needle in hay` for strings: substring containment. -/
def listContains (needle : List Char) : List Char → Bool
  | [] => listIsPrefix needle []
  | c :: cs => listIsPrefix needle (c :: cs) || listContains needle cs

def strIn (needle hay : String) : Bool := listContains needle.data hay.data

/-- Python `s.startswith(p)`. -/
def pyStartswith (s p : String) : Bool := listIsPrefix p.data s.data

/-- Python `s.lower()` (ASCII case folding; inputs of interest are ASCII). -/
def pyLower (s : String) : String := ⟨s.data.map Char.toLower⟩

/-- Python slicing `s[:n]` (by code points). -/
def pyTake (n : Nat) (s : String) : String := ⟨s.data.take n⟩

/-- Python `len(s)` (code points). -/
def pyLen (s : String) : Nat := s.data.length

/-- Split at the first occurrence of `sep`, Python `s.split(sep, 1)`:
returns `(before, after)` if found. -/
def listSplitFirst (sep : Char) : List Char → Option (List Char × List Char)
  | [] => none
  | c :: cs =>
    if c = sep then some ([], cs)
    else match listSplitFirst sep cs with
      | some (a, b) => some (c :: a, b)
      | none => none

/-- Python `s.split(sep, 1)` yielding both pieces, or `none` when `sep`
does not occur (Python would yield a one-element list). -/
def pySplitFirst (sep : Char) (s : String) : Option (String × String) :=
  (listSplitFirst sep s.data).map fun (a, b) => (⟨a⟩, ⟨b⟩)

/-- Python `s.rsplit(' ', 1)[0]`: the part before the last space
(the whole string when there is no space). -/
def pyRsplitSpaceHead (s : String) : String :=
  match listSplitFirst ' ' s.data.reverse with
  | some (_, rest) => ⟨rest.reverse⟩
  | none => s

/-- Python `str.replace(old, new)` for a one-character `old`
(replaces every occurrence). -/
def pyReplaceChar (s : String) (old : Char) (new : String) : String :=
  ⟨(s.data.map fun c => if c = old then new.data else [c]).flatten⟩

/-- Render a natural number zero-padded to width `w`. -/
def padNat (w n : Nat) : String :=
  let d := toString n
  ⟨List.replicate (w - d.data.length) '0'⟩ ++ d

/-! ## The JSON value model and `json.loads` -/

inductive Json where
  | null : Json
  | bool (b : Bool) : Json
  | num (n : Int) : Json
  | str (s : String) : Json
  | arr (xs : List Json) : Json
  | obj (kvs : List (String × Json)) : Json
deriving Repr

mutual

def Json.beq : Json → Json → Bool
  | .null, .null => true
  | .bool a, .bool b => a == b
  | .num a, .num b => a == b
  | .str a, .str b => a == b
  | .arr xs, .arr ys => Json.beqArr xs ys
  | .obj xs, .obj ys => Json.beqObj xs ys
  | _, _ => false

def Json.beqArr : List Json → List Json → Bool
  | [], [] => true
  | x :: xs, y :: ys => Json.beq x y && Json.beqArr xs ys
  | _, _ => false

def Json.beqObj : List (String × Json) → List (String × Json) → Bool
  | [], [] => true
  | (k, v) :: xs, (l, w) :: ys => k == l && Json.beq v w && Json.beqObj xs ys
  | _, _ => false

end

instance : BEq Json := ⟨Json.beq⟩

mutual

theorem Json.beq_refl : (j : Json) → Json.beq j j = true
  | .null => rfl
  | .bool b => by simp [Json.beq]
  | .num n => by simp [Json.beq]
  | .str s => by simp [Json.beq]
  | .arr xs => by simp [Json.beq, Json.beqArr_refl xs]
  | .obj xs => by simp [Json.beq, Json.beqObj_refl xs]

theorem Json.beqArr_refl : (xs : List Json) → Json.beqArr xs xs = true
  | [] => rfl
  | x :: xs => by simp [Json.beqArr, Json.beq_refl x, Json.beqArr_refl xs]

theorem Json.beqObj_refl : (xs : List (String × Json)) → Json.beqObj xs xs = true
  | [] => rfl
  | (k, v) :: xs => by simp [Json.beqObj, Json.beq_refl v, Json.beqObj_refl xs]

end

mutual

theorem Json.eq_of_beq : {a b : Json} → Json.beq a b = true → a = b
  | .null, .null, _ => rfl
  | .bool _, .bool _, h => by simp [Json.beq] at h; simp [h]
  | .num _, .num _, h => by simp [Json.beq] at h; simp [h]
  | .str _, .str _, h => by simp [Json.beq] at h; simp [h]
  | .arr xs, .arr ys, h => by
      simp only [Json.beq] at h
      simp [Json.eqArr_of_beq h]
  | .obj xs, .obj ys, h => by
      simp only [Json.beq] at h
      simp [Json.eqObj_of_beq h]
  | .null, .bool _, h => by simp [Json.beq] at h
  | .null, .num _, h => by simp [Json.beq] at h
  | .null, .str _, h => by simp [Json.beq] at h
  | .null, .arr _, h => by simp [Json.beq] at h
  | .null, .obj _, h => by simp [Json.beq] at h
  | .bool _, .null, h => by simp [Json.beq] at h
  | .bool _, .num _, h => by simp [Json.beq] at h
  | .bool _, .str _, h => by simp [Json.beq] at h
  | .bool _, .arr _, h => by simp [Json.beq] at h
  | .bool _, .obj _, h => by simp [Json.beq] at h
  | .num _, .null, h => by simp [Json.beq] at h
  | .num _, .bool _, h => by simp [Json.beq] at h
  | .num _, .str _, h => by simp [Json.beq] at h
  | .num _, .arr _, h => by simp [Json.beq] at h
  | .num _, .obj _, h => by simp [Json.beq] at h
  | .str _, .null, h => by simp [Json.beq] at h
  | .str _, .bool _, h => by simp [Json.beq] at h
  | .str _, .num _, h => by simp [Json.beq] at h
  | .str _, .arr _, h => by simp [Json.beq] at h
  | .str _, .obj _, h => by simp [Json.beq] at h
  | .arr _, .null, h => by simp [Json.beq] at h
  | .arr _, .bool _, h => by simp [Json.beq] at h
  | .arr _, .num _, h => by simp [Json.beq] at h
  | .arr _, .str _, h => by simp [Json.beq] at h
  | .arr _, .obj _, h => by simp [Json.beq] at h
  | .obj _, .null, h => by simp [Json.beq] at h
  | .obj _, .bool _, h => by simp [Json.beq] at h
  | .obj _, .num _, h => by simp [Json.beq] at h
  | .obj _, .str _, h => by simp [Json.beq] at h
  | .obj _, .arr _, h => by simp [Json.beq] at h

theorem Json.eqArr_of_beq : {xs ys : List Json} → Json.beqArr xs ys = true → xs = ys
  | [], [], _ => rfl
  | x :: xs, y :: ys, h => by
      simp only [Json.beqArr, Bool.and_eq_true] at h
      simp [Json.eq_of_beq h.1, Json.eqArr_of_beq h.2]
  | [], _ :: _, h => by simp [Json.beqArr] at h
  | _ :: _, [], h => by simp [Json.beqArr] at h

theorem Json.eqObj_of_beq :
    {xs ys : List (String × Json)} → Json.beqObj xs ys = true → xs = ys
  | [], [], _ => rfl
  | (k, v) :: xs, (l, w) :: ys, h => by
      simp only [Json.beqObj, Bool.and_eq_true] at h
      obtain ⟨⟨h1, h2⟩, h3⟩ := h
      simp only [beq_iff_eq] at h1
      simp [h1, Json.eq_of_beq h2, Json.eqObj_of_beq h3]
  | [], _ :: _, h => by simp [Json.beqObj] at h
  | _ :: _, [], h => by simp [Json.beqObj] at h

end

instance : DecidableEq Json := fun a b =>
  if h : Json.beq a b = true then
    isTrue (Json.eq_of_beq h)
  else
    isFalse (fun he => h (he ▸ Json.beq_refl a))

/-- Python dict insertion: update the value in place when the key exists,
else append (`json.loads` duplicate-key semantics: later wins, original
position kept). -/
def dictInsert (kvs : List (String × Json)) (k : String) (v : Json) :
    List (String × Json) :=
  match kvs with
  | [] => [(k, v)]
  | (k', v') :: rest =>
    if k' = k then (k', v) :: rest else (k', v') :: dictInsert rest k v

/-- Dict lookup (keys are unique after `dictInsert`, so first hit wins). -/
def dictGet? (kvs : List (String × Json)) (k : String) : Option Json :=
  match kvs with
  | [] => none
  | (k', v) :: rest => if k' = k then some v else dictGet? rest k

/-- Python `d.get(k, default)`. -/
def dictGetD (kvs : List (String × Json)) (k : String) (d : Json) : Json :=
  (dictGet? kvs k).getD d

/-- JSON-document whitespace characters. -/
def isJsonWS (c : Char) : Bool :=
  c = ' ' ∨ c = '\t' ∨ c = '\n' ∨ c = '\x0d'

def skipJsonWS : List Char → List Char
  | [] => []
  | c :: cs => if isJsonWS c then skipJsonWS cs else c :: cs

def isDigit (c : Char) : Bool := '0' ≤ c ∧ c ≤ '9'

def digitVal (c : Char) : Nat := c.toNat - '0'.toNat

def hexVal (c : Char) : Option Nat :=
  if isDigit c then some (digitVal c)
  else if 'a' ≤ c ∧ c ≤ 'f' then some (c.toNat - 'a'.toNat + 10)
  else if 'A' ≤ c ∧ c ≤ 'F' then some (c.toNat - 'A'.toNat + 10)
  else none

/-- Parse a run of decimal digits. -/
def parseDigits : List Char → (List Char × List Char)
  | [] => ([], [])
  | c :: cs =>
    if isDigit c then
      let (ds, rest) := parseDigits cs
      (c :: ds, rest)
    else ([], c :: cs)

def digitsToNat (ds : List Char) : Nat :=
  ds.foldl (fun acc c => acc * 10 + digitVal c) 0

/-- Parse the body of a JSON string literal after the opening quote.
Returns the decoded characters and the input past the closing quote. -/
def parseJsonStringBody : Nat → List Char → Option (List Char × List Char)
  | 0, _ => none
  | _, [] => none
  | fuel + 1, c :: cs =>
    if c = '"' then some ([], cs)
    else if c = '\\' then
      match cs with
      | [] => none
      | e :: cs' =>
        let simpleEsc : Option Char :=
          if e = '"' then some '"'
          else if e = '\\' then some '\\'
          else if e = '/' then some '/'
          else if e = 'b' then some '\x08'
          else if e = 'f' then some '\x0c'
          else if e = 'n' then some '\n'
          else if e = 'r' then some '\x0d'
          else if e = 't' then some '\t'
          else none
        match simpleEsc with
        | some d =>
          match parseJsonStringBody fuel cs' with
          | some (s, rest) => some (d :: s, rest)
          | none => none
        | none =>
          if e = 'u' then
            match cs' with
            | h1 :: h2 :: h3 :: h4 :: cs'' =>
              match hexVal h1, hexVal h2, hexVal h3, hexVal h4 with
              | some a, some b, some c1, some d1 =>
                let n := ((a * 16 + b) * 16 + c1) * 16 + d1
                match parseJsonStringBody fuel cs'' with
                | some (s, rest) => some (Char.ofNat n :: s, rest)
                | none => none
              | _, _, _, _ => none
            | _ => none
          else none
    else if c.toNat < 0x20 then none
    else
      match parseJsonStringBody fuel cs with
      | some (s, rest) => some (c :: s, rest)
      | none => none

/-- Parse an unsigned JSON integer literal (no leading zeros; fractional
and exponent forms are outside the modelled grammar and fail). -/
def parseJsonNat (l : List Char) : Option (Nat × List Char) :=
  match parseDigits l with
  | ([], _) => none
  | (d :: ds, rest) =>
    if d = '0' ∧ ds ≠ [] then none
    else
      match rest with
      | '.' :: _ => none
      | 'e' :: _ => none
      | 'E' :: _ => none
      | _ => some (digitsToNat (d :: ds), rest)

mutual

/-- Parse one JSON value (fuelled recursive descent). -/
def parseJsonValue : Nat → List Char → Option (Json × List Char)
  | 0, _ => none
  | _ + 1, [] => none
  | fuel + 1, c :: cs =>
    if c = '"' then
      match parseJsonStringBody (fuel + 1) cs with
      | some (s, rest) => some (.str ⟨s⟩, rest)
      | none => none
    else if c = '{' then
      match skipJsonWS cs with
      | '}' :: rest => some (.obj [], rest)
      | l => parseJsonMembers fuel l []
    else if c = '[' then
      match skipJsonWS cs with
      | ']' :: rest => some (.arr [], rest)
      | l => parseJsonElems fuel l []
    else if c = 't' then
      match cs with
      | 'r' :: 'u' :: 'e' :: rest => some (.bool true, rest)
      | _ => none
    else if c = 'f' then
      match cs with
      | 'a' :: 'l' :: 's' :: 'e' :: rest => some (.bool false, rest)
      | _ => none
    else if c = 'n' then
      match cs with
      | 'u' :: 'l' :: 'l' :: rest => some (.null, rest)
      | _ => none
    else if c = '-' then
      match parseJsonNat cs with
      | some (n, rest) => some (.num (-(n : Int)), rest)
      | none => none
    else
      match parseJsonNat (c :: cs) with
      | some (n, rest) => some (.num (n : Int), rest)
      | none => none

/-- Parse one-or-more `"key": value` members separated by commas
(after `{`, whitespace skipped, non-empty object). -/
def parseJsonMembers (fuel : Nat) (l : List Char)
    (acc : List (String × Json)) : Option (Json × List Char) :=
  match fuel, l with
  | 0, _ => none
  | _ + 1, [] => none
  | fuel + 1, c :: cs =>
    if c = '"' then
      match parseJsonStringBody (fuel + 1) cs with
      | some (k, rest) =>
        match skipJsonWS rest with
        | ':' :: rest' =>
          match parseJsonValue fuel (skipJsonWS rest') with
          | some (v, rest'') =>
            let acc' := dictInsert acc ⟨k⟩ v
            match skipJsonWS rest'' with
            | ',' :: rest''' => parseJsonMembers fuel (skipJsonWS rest''') acc'
            | '}' :: rest''' => some (.obj acc', rest''')
            | _ => none
          | none => none
        | _ => none
      | none => none
    else none

/-- Parse one-or-more array elements separated by commas
(after `[`, whitespace skipped, non-empty array). -/
def parseJsonElems (fuel : Nat) (l : List Char) (acc : List Json) :
    Option (Json × List Char) :=
  match fuel, l with
  | 0, _ => none
  | fuel + 1, l =>
    match parseJsonValue fuel l with
    | some (v, rest) =>
      match skipJsonWS rest with
      | ',' :: rest' => parseJsonElems fuel (skipJsonWS rest') (acc ++ [v])
      | ']' :: rest' => some (.arr (acc ++ [v]), rest')
      | _ => none
    | none => none

end

/-- Embedding of Python `json.loads` on one line of input: parse a single
JSON document, allowing surrounding whitespace, rejecting trailing
data.  `none` models a raised `json.JSONDecodeError`. -/
def jsonLoads (s : String) : Option Json :=
  match parseJsonValue (s.data.length + 1) (skipJsonWS s.data) with
  | some (v, rest) =>
    match skipJsonWS rest with
    | [] => some v
    | _ => none
  | none => none

/-! ## Python `str()` / `repr()` rendering of JSON-shaped values

Used by the source in f-strings (`f"{value}"`) and explicit `str(...)`
calls on values decoded from JSON. -/

/-- Python `repr` of one character inside a string literal, given the
chosen quote character. -/
def pyReprChar (quote c : Char) : List Char :=
  if c = '\\' then ['\\', '\\']
  else if c = quote then ['\\', quote]
  else if c = '\n' then ['\\', 'n']
  else if c = '\x0d' then ['\\', 'r']
  else if c = '\t' then ['\\', 't']
  else if c.toNat < 0x20 ∨ c.toNat = 0x7f then
    let h := c.toNat
    let dig := fun n => if n < 10 then Char.ofNat ('0'.toNat + n)
                        else Char.ofNat ('a'.toNat + n - 10)
    ['\\', 'x', dig (h / 16), dig (h % 16)]
  else [c]

/-- Python `repr(s)` for a string: single quotes, unless the string
contains a single quote and no double quote. -/
def pyReprStr (s : String) : String :=
  let quote : Char :=
    if ('\'' ∈ s.data) ∧ ¬ ('"' ∈ s.data) then '"' else '\''
  ⟨quote :: (s.data.map (pyReprChar quote)).flatten ++ [quote]⟩

mutual

/-- Python `repr()` of a JSON-decoded value. -/
def pyReprJson : Json → String
  | .null => "None"
  | .bool true => "True"
  | .bool false => "False"
  | .num n => toString n
  | .str s => pyReprStr s
  | .arr xs => "[" ++ pyReprArr xs ++ "]"
  | .obj kvs => "\x7b" ++ pyReprObj kvs ++ "\x7d"

def pyReprArr : List Json → String
  | [] => ""
  | [x] => pyReprJson x
  | x :: xs => pyReprJson x ++ ", " ++ pyReprArr xs

def pyReprObj : List (String × Json) → String
  | [] => ""
  | [(k, v)] => pyReprStr k ++ ": " ++ pyReprJson v
  | (k, v) :: xs => pyReprStr k ++ ": " ++ pyReprJson v ++ ", " ++ pyReprObj xs

end

/-- Python `str()` of a JSON-decoded value (as used by f-strings):
a string renders as itself, everything else as its `repr`. -/
def pyStrJson : Json → String
  | .str s => s
  | v => pyReprJson v

/-! ## UTF-8 encoding (Python `str.encode()`) -/

def utf8Char (c : Char) : List Nat :=
  let n := c.toNat
  if n < 0x80 then [n]
  else if n < 0x800 then [0xc0 + n / 64, 0x80 + n % 64]
  else if n < 0x10000 then
    [0xe0 + n / 4096, 0x80 + n / 64 % 64, 0x80 + n % 64]
  else
    [0xf0 + n / 262144, 0x80 + n / 4096 % 64, 0x80 + n / 64 % 64, 0x80 + n % 64]

def utf8Encode (s : String) : List Nat := (s.data.map utf8Char).flatten

/-! ## MD5 (as used by `hashlib.md5(...).hexdigest()`)

A direct executable embedding of MD5 over byte lists, with 32-bit words
represented as `Nat` reduced modulo `2^32`. -/

def m32 : Nat := 4294967296

def add32 (a b : Nat) : Nat := (a + b) % m32

def not32 (a : Nat) : Nat := a ^^^ 4294967295

def rotl32 (x s : Nat) : Nat := ((x <<< s) % m32) ||| (x >>> (32 - s))

def md5K : List Nat :=
  [0xd76aa478, 0xe8c7b756, 0x242070db, 0xc1bdceee,
   0xf57c0faf, 0x4787c62a, 0xa8304613, 0xfd469501,
   0x698098d8, 0x8b44f7af, 0xffff5bb1, 0x895cd7be,
   0x6b901122, 0xfd987193, 0xa679438e, 0x49b40821,
   0xf61e2562, 0xc040b340, 0x265e5a51, 0xe9b6c7aa,
   0xd62f105d, 0x02441453, 0xd8a1e681, 0xe7d3fbc8,
   0x21e1cde6, 0xc33707d6, 0xf4d50d87, 0x455a14ed,
   0xa9e3e905, 0xfcefa3f8, 0x676f02d9, 0x8d2a4c8a,
   0xfffa3942, 0x8771f681, 0x6d9d6122, 0xfde5380c,
   0xa4beea44, 0x4bdecfa9, 0xf6bb4b60, 0xbebfbc70,
   0x289b7ec6, 0xeaa127fa, 0xd4ef3085, 0x04881d05,
   0xd9d4d039, 0xe6db99e5, 0x1fa27cf8, 0xc4ac5665,
   0xf4292244, 0x432aff97, 0xab9423a7, 0xfc93a039,
   0x655b59c3, 0x8f0ccc92, 0xffeff47d, 0x85845dd1,
   0x6fa87e4f, 0xfe2ce6e0, 0xa3014314, 0x4e0811a1,
   0xf7537e82, 0xbd3af235, 0x2ad7d2bb, 0xeb86d391]

def md5S : List Nat :=
  [7, 12, 17, 22, 7, 12, 17, 22, 7, 12, 17, 22, 7, 12, 17, 22,
   5, 9, 14, 20, 5, 9, 14, 20, 5, 9, 14, 20, 5, 9, 14, 20,
   4, 11, 16, 23, 4, 11, 16, 23, 4, 11, 16, 23, 4, 11, 16, 23,
   6, 10, 15, 21, 6, 10, 15, 21, 6, 10, 15, 21, 6, 10, 15, 21]

/-- Group a byte list into 32-bit words, little-endian. -/
def bytesToWordsLE : List Nat → List Nat
  | b0 :: b1 :: b2 :: b3 :: rest =>
    (b0 + b1 * 256 + b2 * 65536 + b3 * 16777216) :: bytesToWordsLE rest
  | _ => []

/-- One word as four little-endian bytes. -/
def wordToBytesLE (w : Nat) : List Nat :=
  [w % 256, w / 256 % 256, w / 65536 % 256, w / 16777216 % 256]

/-- One of the 64 MD5 rounds. -/
def md5Step (ws : List Nat) (st : Nat × Nat × Nat × Nat) (i : Nat) :
    Nat × Nat × Nat × Nat :=
  let (a, b, c, d) := st
  let fg : Nat × Nat :=
    if i < 16 then ((b &&& c) ||| (not32 b &&& d), i)
    else if i < 32 then ((d &&& b) ||| (not32 d &&& c), (5 * i + 1) % 16)
    else if i < 48 then (b ^^^ c ^^^ d, (3 * i + 5) % 16)
    else (c ^^^ (b ||| not32 d), 7 * i % 16)
  let f := add32 (add32 (add32 fg.1 a) (md5K.getD i 0)) (ws.getD fg.2 0)
  (d, add32 b (rotl32 f (md5S.getD i 0)), b, c)

/-- Process one 64-byte chunk. -/
def md5Chunk (st : Nat × Nat × Nat × Nat) (chunk : List Nat) :
    Nat × Nat × Nat × Nat :=
  let ws := bytesToWordsLE chunk
  let r := (List.range 64).foldl (md5Step ws) st
  (add32 st.1 r.1, add32 st.2.1 r.2.1, add32 st.2.2.1 r.2.2.1,
   add32 st.2.2.2 r.2.2.2)

/-- Fold the chunks (fuelled; the padded input length is a multiple
of 64). -/
def md5Chunks (fuel : Nat) (st : Nat × Nat × Nat × Nat) (bytes : List Nat) :
    Nat × Nat × Nat × Nat :=
  match fuel, bytes with
  | _, [] => st
  | 0, _ => st
  | fuel + 1, bytes => md5Chunks fuel (md5Chunk st (bytes.take 64)) (bytes.drop 64)

/-- MD5 padding: `0x80`, zeros to 56 mod 64, then the bit length as
eight little-endian bytes. -/
def md5Pad (msg : List Nat) : List Nat :=
  let len := msg.length
  let padLen := (55 + 64 - len % 64) % 64 + 1
  let bitLen := len * 8 % (m32 * m32)
  msg ++ (0x80 :: List.replicate (padLen - 1) 0) ++
    (List.range 8).map (fun i => bitLen / 256 ^ i % 256)

def md5Digest (msg : List Nat) : List Nat :=
  let padded := md5Pad msg
  let st := md5Chunks (padded.length / 64 + 1)
    (0x67452301, 0xefcdab89, 0x98badcfe, 0x10325476) padded
  wordToBytesLE st.1 ++ wordToBytesLE st.2.1 ++ wordToBytesLE st.2.2.1 ++
    wordToBytesLE st.2.2.2

def hexDigit (n : Nat) : Char :=
  if n < 10 then Char.ofNat ('0'.toNat + n) else Char.ofNat ('a'.toNat + n - 10)

def byteToHex (b : Nat) : List Char := [hexDigit (b / 16), hexDigit (b % 16)]

/-- `hashlib.md5(s.encode()).hexdigest()`. -/
def md5HexOfString (s : String) : String :=
  ⟨((md5Digest (utf8Encode s)).map byteToHex).flatten⟩

/-! ## Datetimes (`datetime.fromisoformat`, subtraction, `strftime`) -/

structure PyDateTime where
  year : Nat
  month : Nat
  day : Nat
  hour : Nat
  minute : Nat
  second : Nat
  micro : Nat
deriving Repr, DecidableEq

def isLeapYear (y : Nat) : Bool := y % 4 = 0 ∧ (y % 100 ≠ 0 ∨ y % 400 = 0)

def daysInMonth (y m : Nat) : Nat :=
  if m = 2 then (if isLeapYear y then 29 else 28)
  else if m = 4 ∨ m = 6 ∨ m = 9 ∨ m = 11 then 30
  else 31

def cumDaysBeforeMonth (m : Nat) : Nat :=
  [0, 0, 31, 59, 90, 120, 151, 181, 212, 243, 273, 304, 334].getD m 0

/-- Proleptic-Gregorian ordinal day (0001-01-01 ↦ 1), as
`datetime.toordinal`. -/
def dateOrdinal (y m d : Nat) : Nat :=
  (y - 1) * 365 + (y - 1) / 4 - (y - 1) / 100 + (y - 1) / 400 +
    cumDaysBeforeMonth m + (if 2 < m ∧ isLeapYear y then 1 else 0) + d

def PyDateTime.toMicro (t : PyDateTime) : Nat :=
  ((dateOrdinal t.year t.month t.day * 24 + t.hour) * 60 + t.minute) * 60
      * 1000000 + t.second * 1000000 + t.micro

/-- Parse exactly two decimal digits. -/
def parse2 : List Char → Option (Nat × List Char)
  | a :: b :: rest =>
    if isDigit a ∧ isDigit b then some (digitVal a * 10 + digitVal b, rest)
    else none
  | _ => none

def parse4 : List Char → Option (Nat × List Char)
  | a :: b :: c :: d :: rest =>
    if isDigit a ∧ isDigit b ∧ isDigit c ∧ isDigit d then
      some (((digitVal a * 10 + digitVal b) * 10 + digitVal c) * 10
        + digitVal d, rest)
    else none
  | _ => none

/-- Parse a UTC-offset suffix `±HH[:MM[:SS]]` (value discarded by the
caller, which strips timezone information). -/
def parseIsoOffset (l : List Char) : Option Unit :=
  match l with
  | [] => some ()
  | c :: rest =>
    if c = '+' ∨ c = '-' then
      match parse2 rest with
      | none => none
      | some (oh, rest') =>
        if 24 ≤ oh then none
        else
          match rest' with
          | [] => some ()
          | ':' :: rest'' =>
            match parse2 rest'' with
            | none => none
            | some (om, rest''') =>
              if 60 ≤ om then none
              else
                match rest''' with
                | [] => some ()
                | ':' :: r4 =>
                  match parse2 r4 with
                  | some (os, []) => if 60 ≤ os then none else some ()
                  | _ => none
                | _ => none
          | _ => none
    else none

/-- Parse the time-of-day part `HH[:MM[:SS[.ffffff]]]` plus optional
offset. -/
def parseIsoTime (l : List Char) : Option (Nat × Nat × Nat × Nat) :=
  match parse2 l with
  | none => none
  | some (h, rest) =>
    if 24 ≤ h then none
    else
      match rest with
      | ':' :: rest' =>
        match parse2 rest' with
        | none => none
        | some (mi, rest'') =>
          if 60 ≤ mi then none
          else
            match rest'' with
            | ':' :: r3 =>
              match parse2 r3 with
              | none => none
              | some (s, r4) =>
                if 60 ≤ s then none
                else
                  match r4 with
                  | '.' :: r5 =>
                    match parseDigits r5 with
                    | ([], _) => none
                    | (ds, r6) =>
                      if 6 < ds.length then none
                      else
                        let micro := digitsToNat ds *
                          10 ^ (6 - ds.length)
                        (parseIsoOffset r6).map fun _ => (h, mi, s, micro)
                  | _ => (parseIsoOffset r4).map fun _ => (h, mi, s, 0)
            | _ => (parseIsoOffset rest'').map fun _ => (h, mi, 0, 0)
      | _ => (parseIsoOffset rest).map fun _ => (h, 0, 0, 0)

/-- Embedding of `datetime.fromisoformat` (modelled grammar:
`YYYY-MM-DD`, optionally a single separator character and
`HH[:MM[:SS[.f{1..6}]]]`, optionally a `±HH[:MM[:SS]]` offset, which the
caller discards). -/
def pyFromIso (s : String) : Option PyDateTime :=
  match parse4 s.data with
  | none => none
  | some (y, rest) =>
    match rest with
    | '-' :: r1 =>
      match parse2 r1 with
      | none => none
      | some (mo, r2) =>
        if mo = 0 ∨ 12 < mo then none
        else
          match r2 with
          | '-' :: r3 =>
            match parse2 r3 with
            | none => none
            | some (d, r4) =>
              if d = 0 ∨ daysInMonth y mo < d ∨ y = 0 then none
              else
                match r4 with
                | [] => some ⟨y, mo, d, 0, 0, 0, 0⟩
                | _ :: r5 =>
                  match parseIsoTime r5 with
                  | some (h, mi, sec, mic) => some ⟨y, mo, d, h, mi, sec, mic⟩
                  | none => none
          | _ => none
    | _ => none

def fmtHMS (t : PyDateTime) : String :=
  padNat 2 t.hour ++ ":" ++ padNat 2 t.minute ++ ":" ++ padNat 2 t.second

def fmtYMD (t : PyDateTime) : String :=
  padNat 4 t.year ++ "-" ++ padNat 2 t.month ++ "-" ++ padNat 2 t.day

/-- Embedding of `format_timestamp`: all of the source's branches call
`fromisoformat`, the only observable difference being the
`Z → +00:00` replacement; timezone info is then discarded, and any
parse failure (including `'Z' in x` raising `TypeError` on non-string
input, caught by the local `try`) falls back to the wall clock `now`. -/
def pyFormatTimestamp (ts : Json) (now : PyDateTime) :
    String × String × PyDateTime :=
  match ts with
  | .str s =>
    let s' := if strIn "Z" s then pyReplaceChar s 'Z' "+00:00" else s
    match pyFromIso s' with
    | some dt => (fmtHMS dt, fmtYMD dt, dt)
    | none => (fmtHMS now, fmtYMD now, now)
  | _ => (fmtHMS now, fmtYMD now, now)

/-- Python `int(x)` truncation toward zero, for `x = a / b` exact. -/
def truncDivInt (a : Int) (b : Nat) : Int :=
  if 0 ≤ a then ((a.toNat / b : Nat) : Int) else -(((-a).toNat / b : Nat) : Int)

/-- `int((last_dt - first_dt).total_seconds() / 60)` in exact
arithmetic. -/
def pyDurationMinutes (first last : PyDateTime) : Int :=
  truncDivInt ((last.toMicro : Int) - (first.toMicro : Int)) 60000000

/-! ## `clean_filename` -/

def isInvalidFilenameChar (c : Char) : Bool :=
  c = '<' ∨ c = '>' ∨ c = ':' ∨ c = '"' ∨ c = '/' ∨ c = '\\' ∨ c = '|' ∨
    c = '?' ∨ c = '*'

/-- `re.sub(r'\s+', ' ', ·)`: collapse each maximal whitespace run to a
single space (`prevWS` records whether the previous character was part
of a run). -/
def collapseWSAux : Bool → List Char → List Char
  | _, [] => []
  | prevWS, c :: cs =>
    if isPyWS c then
      (if prevWS then [] else [' ']) ++ collapseWSAux true cs
    else c :: collapseWSAux false cs

def cleanFilename (text : String) (maxLength : Nat) : String :=
  let cleaned : String := ⟨text.data.filter (fun c => ¬ isInvalidFilenameChar c)⟩
  let cleaned := pyStrip ⟨collapseWSAux false cleaned.data⟩
  if maxLength < pyLen cleaned then
    pyRsplitSpaceHead (pyTake maxLength cleaned) ++ "..."
  else cleaned

/-! ## `decode_project_path` and the path scheme -/

def decodeProjectPath (encodedPath : String) : String :=
  if ¬ pyStartswith encodedPath "-" then encodedPath
  else
    let decoded := pyReplaceChar ⟨encodedPath.data.drop 1⟩ '-' "/"
    if pyStartswith decoded "mnt/c/" then "C:/" ++ ⟨decoded.data.drop 6⟩
    else if pyStartswith decoded "home/" then "/" ++ decoded
    else decoded

/-- `get_session_file_path` (path components below the output base;
the directory-creation side effect is not modelled). -/
def getSessionFilePathParts (sessionId deviceName : String) : List String :=
  let folder :=
    if pyStartswith sessionId "unknown_" then "unknown" else pyTake 2 sessionId
  ["Devices", deviceName, folder, sessionId ++ ".md"]

/-! ## Reading metadata back out of an artifact -/

/-- `read_existing_metadata`, over the artifact's lines. -/
def readExistingMetadataAux : Bool → List String → List (String × String)
  | _, [] => []
  | inFM, line :: rest =>
    if pyStrip line = "---" then
      if inFM then [] else readExistingMetadataAux true rest
    else if inFM ∧ strIn ":" line then
      match pySplitFirst ':' line with
      | some (k, v) => (pyStrip k, pyStrip v) :: readExistingMetadataAux true rest
      | none => readExistingMetadataAux true rest
    else readExistingMetadataAux inFM rest

def readExistingMetadataLines (ls : List String) : List (String × String) :=
  readExistingMetadataAux false ls

/-- Python-dict lookup over the collected `key: value` pairs (later
assignments win). -/
def mdLookup (kvs : List (String × String)) (k : String) : Option String :=
  ((kvs.filter (fun p => p.1 = k)).getLast?).map (fun p => p.2)

/-! ## Python-value helpers used by `extract_content` -/

/-- Python truthiness of a JSON-decoded value. -/
def jsonFalsy : Json → Bool
  | .null => true
  | .bool b => !b
  | .num n => n == 0
  | .str s => s == ""
  | .arr xs => xs.isEmpty
  | .obj kvs => kvs.isEmpty

/-- Python `k in j`; `none` models a raised `TypeError` (membership test
on a non-container). -/
def pyInKey (k : String) : Json → Option Bool
  | .obj kvs => some (dictGet? kvs k).isSome
  | .str s => some (strIn k s)
  | .arr xs => some (xs.any (· == Json.str k))
  | _ => none

/-- Python `j[k]` for a string key; `none` models `TypeError`/`KeyError`. -/
def pySubscript (j : Json) (k : String) : Option Json :=
  match j with
  | .obj kvs => dictGet? kvs k
  | _ => none

/-! ## `extract_content` (the Content Normalizer) -/

/-- Fields named `content`/`old_string`/`new_string` render as a fenced
block, truncated to 500 characters when the value is a string longer
than that. -/
def toolInputItemParts (kv : String × Json) : List Json :=
  let (k, v) := kv
  if k = "file_path" then [.str ("File: `" ++ pyStrJson v ++ "`")]
  else if k = "content" ∨ k = "old_string" ∨ k = "new_string" then
    let v' : Json :=
      match v with
      | .str s =>
        if 500 < pyLen s then .str (pyTake 500 s ++ "...\n[truncated]")
        else .str s
      | w => w
    [.str ("```\n" ++ pyStrJson v' ++ "\n```")]
  else [.str (k ++ ": " ++ pyStrJson v)]

/-- Parts contributed by one element of a structured `content` list;
`none` models an uncaught exception inside the loop. -/
def extractItemParts (item : Json) : Option (List Json) :=
  match item with
  | .str s => some [.str s]
  | .obj kvs =>
    let ty := dictGetD kvs "type" .null
    if ty == Json.str "text" then some [dictGetD kvs "text" (.str "")]
    else if ty == Json.str "tool_use" then
      let toolName := dictGetD kvs "name" (.str "Unknown Tool")
      let toolInput := dictGetD kvs "input" (.obj [])
      let header : Json := .str ("\n**[Tool: " ++ pyStrJson toolName ++ "]**")
      let elseBranch : Option (List Json) :=
        match toolInput with
        | .obj ikvs => some (header :: (ikvs.map toolInputItemParts).flatten)
        | _ => none
      if toolName == Json.str "Bash" then
        match pyInKey "command" toolInput with
        | none => none
        | some false => elseBranch
        | some true =>
          match pySubscript toolInput "command" with
          | none => none
          | some cmd =>
            let cmdPart : Json := .str ("```bash\n" ++ pyStrJson cmd ++ "\n```")
            match pyInKey "description" toolInput with
            | none => none
            | some false => some [header, cmdPart]
            | some true =>
              match pySubscript toolInput "description" with
              | none => none
              | some desc =>
                some [header, cmdPart, .str ("*" ++ pyStrJson desc ++ "*")]
      else elseBranch
    else if ty == Json.str "tool_result" then
      let rc := dictGetD kvs "content" (.str "")
      let rc : Json :=
        match rc with
        | .arr (x :: _) =>
          match x with
          | .obj xkvs => dictGetD xkvs "text" (.str "")
          | other => .str (pyStrJson other)
        | _ => rc
      let rc2 : Json :=
        if 1000 < pyLen (pyStrJson rc) then
          .str (pyTake 1000 (pyStrJson rc) ++ "...\n[truncated]")
        else rc
      some [.str "\n**[Result]**", .str ("```\n" ++ pyStrJson rc2 ++ "\n```")]
    else some []
  | _ => some []

/-- `'\n'.join(parts)`; `none` models the `TypeError` raised when a
collected part is not a string. -/
def joinParts (ps : List Json) : Option String :=
  if ps.all (fun p => match p with | .str _ => true | _ => false) then
    some (String.intercalate "\n" (ps.map pyStrJson))
  else none

def extractListParts : List Json → Option (List Json)
  | [] => some []
  | item :: rest =>
    match extractItemParts item with
    | none => none
    | some ps =>
      match extractListParts rest with
      | none => none
      | some ps' => some (ps ++ ps')

/-- Embedding of `extract_content`; `none` models an exception that
escapes the function. -/
def extractContent (message : Json) : Option String :=
  if jsonFalsy message then some "" else
  match pyInKey "content" message with
  | none => none
  | some false => some ""
  | some true =>
    match pySubscript message "content" with
    | none => none
    | some content =>
      match content with
      | .str s => some s
      | .arr items =>
        match extractListParts items with
        | none => none
        | some parts => joinParts parts
      | other => some (pyStrJson other)

/-! ## `extract_tools_used` -/

def isJsonStr : Json → Bool
  | .str _ => true
  | _ => false

def jsonStrVal : Json → String
  | .str s => s
  | _ => ""

/-- Tool names added by one line (the bare `except: continue` makes any
failing line contribute nothing). -/
def toolNamesOfLine (line : String) : List Json :=
  match jsonLoads line with
  | none => []
  | some e =>
    match e with
    | .obj eo =>
      match dictGetD eo "message" (.obj []) with
      | .obj mo =>
        match dictGet? mo "content" with
        | some (.arr items) =>
          (items.filterMap fun item =>
            match item with
            | .obj ikvs =>
              if dictGetD ikvs "type" .null == Json.str "tool_use" then
                some (dictGetD ikvs "name" (.str "Unknown"))
              else none
            | _ => none)
        | _ => []
      | _ => []
    | _ => []

def listDedup : List Json → List Json
  | [] => []
  | x :: xs => if xs.contains x then listDedup xs else x :: listDedup xs

/-- `sorted(list(tools))`: the set of names sorted; only string names
are modelled as sortable (`none` models the `TypeError` from sorting
heterogeneous names — realistic tool names are strings). -/
def extractToolsUsed (lines : List String) : Option (List String) :=
  let names := listDedup ((lines.map toolNamesOfLine).flatten)
  if names.all isJsonStr then
    some (List.insertionSort (fun a b => a ≤ b) (names.map jsonStrVal))
  else none

/-! ## `json.dumps` on a list of strings -/

def jsonDumpHex4 (n : Nat) : List Char :=
  [hexDigit (n / 4096 % 16), hexDigit (n / 256 % 16), hexDigit (n / 16 % 16),
   hexDigit (n % 16)]

def jsonDumpChar (c : Char) : List Char :=
  if c = '"' then ['\\', '"']
  else if c = '\\' then ['\\', '\\']
  else if c = '\n' then ['\\', 'n']
  else if c = '\x0d' then ['\\', 'r']
  else if c = '\t' then ['\\', 't']
  else if c = '\x08' then ['\\', 'b']
  else if c = '\x0c' then ['\\', 'f']
  else if c.toNat < 0x20 then '\\' :: 'u' :: jsonDumpHex4 c.toNat
  else if c.toNat < 0x7f then [c]
  else if c.toNat < 0x10000 then '\\' :: 'u' :: jsonDumpHex4 c.toNat
  else
    let v := c.toNat - 0x10000
    ('\\' :: 'u' :: jsonDumpHex4 (0xd800 + v / 1024)) ++
      ('\\' :: 'u' :: jsonDumpHex4 (0xdc00 + v % 1024))

def jsonDumpStr (s : String) : String :=
  ⟨'"' :: (s.data.map jsonDumpChar).flatten ++ ['"']⟩

/-- `json.dumps` of a list of strings (default separators). -/
def jsonDumpsList (xs : List String) : String :=
  "[" ++ String.intercalate ", " (xs.map jsonDumpStr) ++ "]"

/-! ## `generate_tags` -/

def keywordTags : List (String × List String) :=
  [("python", ["python", ".py", "pip", "django", "flask"]),
   ("javascript", ["javascript", ".js", "node", "npm", "react", "vue"]),
   ("docker", ["docker", "container", "dockerfile"]),
   ("git", ["git ", "commit", "branch", "merge"]),
   ("database", ["sql", "database", "postgres", "mysql", "mongodb"]),
   ("api", ["api", "rest", "graphql", "endpoint"]),
   ("terminal", ["bash", "shell", "terminal", "command"]),
   ("configuration", ["config", "settings", ".env", "yaml"])]

def generateTags (content projectPath : String) : List String :=
  let pathTags :=
    (if strIn "wsl" (pyLower projectPath) ∨ strIn "/mnt/" projectPath
     then ["wsl"] else []) ++
    (if strIn "windows" (pyLower projectPath) ∨ strIn "C:\\" projectPath
     then ["windows"] else [])
  let contentLower := pyLower content
  pathTags ++ (keywordTags.filterMap fun (tag, kws) =>
    if kws.any (fun kw => strIn kw contentLower) then some tag else none)

/-! ## Integer parsing (`int(str)`) -/

/-- Python `int(s)` on a string: optional sign, non-empty digit run,
surrounding whitespace allowed; `none` models `ValueError`. -/
def pyParseInt (s : String) : Option Int :=
  match (pyStrip s).data with
  | '-' :: ds =>
    if ds ≠ [] ∧ ds.all isDigit then some (-(digitsToNat ds : Int)) else none
  | '+' :: ds =>
    if ds ≠ [] ∧ ds.all isDigit then some ((digitsToNat ds : Int)) else none
  | ds =>
    if ds ≠ [] ∧ ds.all isDigit then some ((digitsToNat ds : Int)) else none

/-! ## `convert_conversation`

The conversion step for one source log.  Inputs:
* `rawLines` — the lines of the source `.jsonl` file;
* `parentDir` — `Path(jsonl_file).parent.name`;
* `existingLines` — the lines of the artifact already at the computed
  output path, if any (file I/O is abstracted to this parameter);
* `env` — device/platform labels (`get_device_info`) and the wall clock.

The result is `none` when the source raises an exception that only the
outermost `try` catches (the conversion of that file fails), otherwise
`some (session_id, md_content)`. -/

structure ConvEnv where
  deviceName : String
  platformName : String
  now : PyDateTime

def Json.isStrVal : Json → Option String
  | .str s => some s
  | _ => none

/-- The first-ten-lines scan for a user entry used to synthesize an id
(lines 256–264 of the source; the bare `except: pass` skips any failing
line). -/
def firstMsgForIdAux : List String → String
  | [] => ""
  | l :: rest =>
    match jsonLoads l with
    | none => firstMsgForIdAux rest
    | some (.obj eo) =>
      if dictGetD eo "type" .null == Json.str "user" then
        pyTake 100 (pyStrJson (dictGetD eo "message" (.str "")))
      else firstMsgForIdAux rest
    | some _ => firstMsgForIdAux rest

/-- Session-identity resolution (source lines 251–268).  `none` models
the `AttributeError` later raised by `session_id.startswith` when the
source supplies a non-string session id. -/
def resolveSessionId (lines : List String) (firstEntryObj : List (String × Json))
    (parentDir : String) : Option String :=
  let sidJ := dictGetD firstEntryObj "sessionId" (.str "unknown")
  if sidJ == Json.str "unknown" then
    let firstMsg := firstMsgForIdAux (lines.take 10)
    let idSource := parentDir ++ ":" ++ firstMsg
    some ("unknown_" ++ pyTake 12 (md5HexOfString idSource))
  else sidJ.isStrVal

/-- `Path(p).name` (POSIX flavour: final non-empty `/`-separated
component). -/
def splitSlash (s : String) : List String :=
  (s.data.foldr
    (fun c (acc : List (List Char)) =>
      match acc with
      | [] => if c = '/' then [[], []] else [[c]]
      | seg :: segs => if c = '/' then [] :: seg :: segs else (c :: seg) :: segs)
    [[]]).map (fun l => (⟨l⟩ : String))

def pathName (s : String) : String :=
  ((splitSlash s).filter (fun seg => seg ≠ "")).getLastD ""

/-- The title scan (source lines 300–313): first user entry with a
truthy message and non-empty extracted content. -/
def titleScanAux : List String → Option String
  | [] => none
  | l :: rest =>
    match jsonLoads l with
    | none => titleScanAux rest
    | some (.obj eo) =>
      let msgJ := dictGetD eo "message" .null
      if dictGetD eo "type" .null == Json.str "user" ∧ ¬ jsonFalsy msgJ then
        match extractContent msgJ with
        | none => titleScanAux rest
        | some c =>
          if c ≠ "" then some (cleanFilename (pyTake 100 c) 50)
          else titleScanAux rest
      else titleScanAux rest
    | some _ => titleScanAux rest

/-- The tag-source accumulation (source lines 322–329; the bare
`except: continue` makes every failing line contribute nothing). -/
def fullContentAux : List String → String
  | [] => ""
  | l :: rest =>
    match jsonLoads l with
    | none => fullContentAux rest
    | some (.obj eo) =>
      match dictGet? eo "message" with
      | some m =>
        match extractContent m with
        | none => fullContentAux rest
        | some c => c ++ "\n" ++ fullContentAux rest
      | none => fullContentAux rest
    | some _ => fullContentAux rest

def hasErrorsOf (lines : List String) : Bool :=
  lines.any fun l => strIn "error" (pyLower l) || strIn "failed" (pyLower l)

/-- The transcript-rendering loop (source lines 379–409).  Only
`json.JSONDecodeError` is caught there, so a line whose JSON parses to a
non-object, or whose message makes `extract_content` raise, is fatal
(`none`). -/
def renderMessagesAux (env : ConvEnv) : List String → Option (List String)
  | [] => some []
  | l :: rest =>
    match jsonLoads l with
    | none => renderMessagesAux env rest
    | some (.obj eo) =>
      let ty := dictGetD eo "type" (.str "unknown")
      let (timeStr, dateStr, _) :=
        pyFormatTimestamp (dictGetD eo "timestamp" (.str "")) env.now
      let msg := dictGetD eo "message" (.obj [])
      if ty == Json.str "user" then
        match extractContent msg with
        | none => none
        | some c =>
          (renderMessagesAux env rest).map fun tail =>
            ("## 🧑 User [" ++ dateStr ++ " " ++ timeStr ++ "]") :: c :: "" :: tail
      else if ty == Json.str "assistant" then
        match extractContent msg with
        | none => none
        | some c =>
          (renderMessagesAux env rest).map fun tail =>
            ("## 🤖 Assistant [" ++ dateStr ++ " " ++ timeStr ++ "]") :: c :: "" :: tail
      else if ty == Json.str "tool_result" then
        let head := "### Tool Result [" ++ timeStr ++ "]"
        match dictGet? eo "content" with
        | some cv =>
          (renderMessagesAux env rest).map fun tail =>
            head :: ("```\n" ++ pyStrJson cv ++ "\n```") :: "" :: tail
        | none =>
          (renderMessagesAux env rest).map fun tail => head :: "" :: tail
      else renderMessagesAux env rest
    | some _ => none

/-- `first_seen` selection (source lines 339–343): carried forward from
the existing artifact when present there, else the raw first
timestamp value (an absent or empty metadata dict is falsy). -/
def firstSeenOf (existingMeta : Option (List (String × String)))
    (firstTsJ : Json) : Json :=
  match existingMeta with
  | some m =>
    match mdLookup m "first_seen" with
    | some v => .str v
    | none => firstTsJ
  | none => firstTsJ

/-- `lines = [line.strip() for line in f if line.strip()]`. -/
def preprocessLines (rawLines : List String) : List String :=
  (rawLines.map pyStrip).filter (fun l => l ≠ "")

/-- Everything `convert_conversation` computes from the source log
alone (independent of any existing artifact). -/
structure CoreData where
  sessionId : String
  firstTsJ : Json
  lastTsJ : Json
  userTypeJ : Json
  modelJ : Json
  firstTime : String
  firstDate : String
  lastTime : String
  lastDate : String
  durationMinutes : Int
  projectPathStr : String
  projectName : String
  conversationTitle : String
  msgCount : Nat
  toolsUsed : List String
  tags : List String
  status : String
  hasErrors : Bool
  msgLines : List String
deriving Repr, DecidableEq

def convertCore (rawLines : List String) (parentDir : String) (env : ConvEnv) :
    Option CoreData :=
  let lines := preprocessLines rawLines
  match lines with
  | [] => none
  | l0 :: restLines =>
    match jsonLoads l0 with
    | none => none
    | some firstE =>
      match jsonLoads ((l0 :: restLines).getLastD "") with
      | none => none
      | some lastE =>
        match firstE with
        | .obj feo =>
          match resolveSessionId (l0 :: restLines) feo parentDir with
          | none => none
          | some sessionId =>
            let cwd := dictGetD feo "cwd" (.str "unknown")
            let firstTsJ := dictGetD feo "timestamp" (.str "")
            let (firstTime, firstDate, firstDt) :=
              pyFormatTimestamp firstTsJ env.now
            match lastE with
            | .obj leo =>
              let lastTsJ := dictGetD leo "timestamp" (.str "")
              let (lastTime, lastDate, lastDt) :=
                pyFormatTimestamp lastTsJ env.now
              let durationMinutes := pyDurationMinutes firstDt lastDt
              let actualProjectPath := decodeProjectPath parentDir
              let projectPathJ : Json :=
                if actualProjectPath ≠ "" ∧ actualProjectPath ≠ "unknown" then
                  .str actualProjectPath
                else cwd
              match projectPathJ.isStrVal with
              | none => none
              | some projectPathStr =>
                let projectName :=
                  if projectPathStr = "unknown" then "general"
                  else pathName projectPathStr
                let conversationTitle :=
                  (titleScanAux (l0 :: restLines)).getD
                    ("Session " ++ pyTake 8 sessionId)
                match extractToolsUsed (l0 :: restLines) with
                | none => none
                | some toolsUsed =>
                  let hasErrors := hasErrorsOf (l0 :: restLines)
                  let fullContent := fullContentAux (l0 :: restLines)
                  let tags := generateTags fullContent projectPathStr
                  let status :=
                    if hasErrors then "completed_with_errors"
                    else if durationMinutes < 5 then "active" else "completed"
                  match renderMessagesAux env (l0 :: restLines) with
                  | none => none
                  | some msgLines =>
                    some
                      { sessionId := sessionId
                        firstTsJ := firstTsJ
                        lastTsJ := lastTsJ
                        userTypeJ := dictGetD feo "userType" (.str "unknown")
                        modelJ := dictGetD feo "model" (.str "unknown")
                        firstTime := firstTime
                        firstDate := firstDate
                        lastTime := lastTime
                        lastDate := lastDate
                        durationMinutes := durationMinutes
                        projectPathStr := projectPathStr
                        projectName := projectName
                        conversationTitle := conversationTitle
                        msgCount := (l0 :: restLines).length
                        toolsUsed := toolsUsed
                        tags := tags
                        status := status
                        hasErrors := hasErrors
                        msgLines := msgLines }
            | _ => none
        | _ => none

/-- The rendered `md_content` (source lines 346–409), given the chosen
`first_seen` value. -/
def renderArtifact (env : ConvEnv) (cd : CoreData) (firstSeenJ : Json) :
    List String :=
  ["---",
   "# Obsidian Bases Properties",
   "device: " ++ env.deviceName,
   "platform: " ++ env.platformName,
   "user: " ++ pyStrJson cd.userTypeJ,
   "first_seen: " ++ pyStrJson firstSeenJ,
   "last_updated: " ++ pyStrJson cd.lastTsJ,
   "date: " ++ cd.firstDate,
   "session_id: " ++ cd.sessionId,
   "project_path: " ++ cd.projectPathStr,
   "project_name: " ++ cd.projectName,
   "conversation_title: " ++ cd.conversationTitle,
   "message_count: " ++ toString cd.msgCount,
   "tools_used: " ++ jsonDumpsList cd.toolsUsed,
   "tags: " ++ jsonDumpsList cd.tags,
   "duration_minutes: " ++ toString cd.durationMinutes,
   "model: " ++ pyStrJson cd.modelJ,
   "status: " ++ cd.status,
   "has_errors: " ++ (if cd.hasErrors then "true" else "false"),
   "---",
   "",
   "# " ++ cd.conversationTitle,
   "",
   "**Session:** `" ++ cd.sessionId ++ "`",
   "**Device:** " ++ env.deviceName ++ " | **Platform:** " ++ env.platformName,
   "**Started:** " ++ cd.firstDate ++ " " ++ cd.firstTime ++
     " | **Updated:** " ++ cd.lastDate ++ " " ++ cd.lastTime,
   "**Project:** `" ++ cd.projectPathStr ++ "`",
   "**Duration:** " ++ toString cd.durationMinutes ++
     " minutes | **Messages:** " ++ toString cd.msgCount,
   "",
   "---",
   ""] ++ cd.msgLines

def convertConversation (rawLines : List String) (parentDir : String)
    (existingLines : Option (List String)) (env : ConvEnv) :
    Option (String × List String) :=
  (convertCore rawLines parentDir env).map fun cd =>
    (cd.sessionId,
     renderArtifact env cd
       (firstSeenOf (existingLines.map readExistingMetadataLines) cd.firstTsJ))

/-- The bytes written to the output file: `'\n'.join(md_content)`. -/
def artifactText (mdLines : List String) : String :=
  String.intercalate "\n" mdLines

/-- Split file bytes back into lines at newlines (how the artifact
written by `'\n'.join(md_content)` reads back line-by-line). -/
def splitLinesAux : List Char → List Char → List String
  | acc, [] => [⟨acc.reverse⟩]
  | acc, c :: cs =>
    if c = '\n' then ⟨acc.reverse⟩ :: splitLinesAux [] cs
    else splitLinesAux (c :: acc) cs

def pySplitLines (s : String) : List String := splitLinesAux [] s.data

/-- Conversion producing the final artifact bytes. -/
def convertArtifact (rawLines : List String) (parentDir : String)
    (existingLines : Option (List String)) (env : ConvEnv) :
    Option (String × String) :=
  (convertConversation rawLines parentDir existingLines env).map
    fun p => (p.1, artifactText p.2)

/-! ## `migrate-duplicates.py` — the Duplicate Consolidator

The artifact tree is modelled as a list of files (absolute path as a
list of components, content as a list of lines).  `shutil.copy2` /
`shutil.move` become whole-content writes; an uncaught exception stops
the run, keeping the partial effects (the source has no per-group
exception handling). -/

structure MFile where
  path : List String
  content : List String
deriving Repr, DecidableEq

abbrev MFS := List MFile

def readFileFS (fs : MFS) (p : List String) : Option (List String) :=
  (fs.find? (fun f => f.path = p)).map (fun f => f.content)

def removeFileFS (fs : MFS) (p : List String) : MFS :=
  fs.filter (fun f => ¬ f.path = p)

def setFileFS (fs : MFS) (p : List String) (c : List String) : MFS :=
  removeFileFS fs p ++ [⟨p, c⟩]

/-- `shutil.copy2(src, dst)`: `none` models `SameFileError` or a
missing source. -/
def copy2FS (fs : MFS) (src dst : List String) : Option MFS :=
  if src = dst then none
  else
    match readFileFS fs src with
    | none => none
    | some c => some (setFileFS fs dst c)

/-- `shutil.move(src, dst)`: `none` models a missing source. -/
def moveFS (fs : MFS) (src dst : List String) : Option MFS :=
  match readFileFS fs src with
  | none => none
  | some c => some (setFileFS (removeFileFS fs src) dst c)

/-- `extract_session_id`: the first line starting with `session_id:`. -/
def extractSessionIdLines : List String → Option String
  | [] => none
  | l :: rest =>
    if pyStartswith l "session_id:" then
      match pySplitFirst ':' l with
      | some (_, v) => some (pyStrip v)
      | none => none
    else extractSessionIdLines rest

/-- `extract_metadata`: the selected frontmatter keys. -/
def extractMetadataAux : Bool → List String → List (String × String)
  | _, [] => []
  | inFM, line :: rest =>
    if pyStrip line = "---" then
      if inFM then [] else extractMetadataAux true rest
    else if inFM ∧ strIn ":" line then
      match pySplitFirst ':' line with
      | some (k, v) =>
        let k := pyStrip k
        if k = "message_count" ∨ k = "timestamp" ∨ k = "first_seen" ∨
            k = "last_updated" then
          (k, pyStrip v) :: extractMetadataAux true rest
        else extractMetadataAux true rest
      | none => extractMetadataAux true rest
    else extractMetadataAux inFM rest

/-- `extract_metadata(...).get('message_count', 0)` with the
`int(...) or 0` parse. -/
def migrateMsgCount (content : List String) : Int :=
  match mdLookup (extractMetadataAux false content) "message_count" with
  | none => 0
  | some v => (pyParseInt v).getD 0

def pyEndswith (s suffix : String) : Bool :=
  listIsPrefix suffix.data.reverse s.data.reverse

def pathUnder (dir p : List String) : Bool := p.take dir.length = dir

/-- `old_devices_dir.rglob("*.md")` over the snapshot. -/
def allMdFiles (vault : List String) (fs : MFS) : List MFile :=
  fs.filter fun f =>
    pathUnder (vault ++ ["Devices"]) f.path ∧ pyEndswith (f.path.getLastD "") ".md"

/-- `defaultdict(list)` grouping: key order is first occurrence, file
order within a key is enumeration order. -/
def groupInsert (gs : List (String × List (List String))) (k : String)
    (p : List String) : List (String × List (List String)) :=
  match gs with
  | [] => [(k, [p])]
  | (k', ps) :: rest =>
    if k' = k then (k', ps ++ [p]) :: rest else (k', ps) :: groupInsert rest k p

/-- Group the snapshot files by recorded session id (`if session_id:` —
a missing or empty id is falsy and the file is skipped with a warning). -/
def groupBySid (files : List MFile) : List (String × List (List String)) :=
  files.foldl
    (fun gs f =>
      match extractSessionIdLines f.content with
      | some sid => if sid ≠ "" then groupInsert gs sid f.path else gs
      | none => gs)
    []

/-- `get_new_path` (note: tests `startswith('unknown')`, unlike v3's
`'unknown_'`). -/
def getNewPath (sessionId deviceName : String) (vault : List String) :
    List String :=
  let folder :=
    if pyStartswith sessionId "unknown" then "unknown" else pyTake 2 sessionId
  vault ++ ["Devices", deviceName, folder, sessionId ++ ".md"]

/-- `best_file.parts[-5]`; `none` models the `IndexError` on too-short
paths. -/
def partsIdx5 (p : List String) : Option String :=
  if 5 ≤ p.length then p.get? (p.length - 5) else none

/-- `backup_dir / f.relative_to(old_devices_dir)`. -/
def backupPathOf (vault : List String) (p : List String) : List String :=
  vault ++ ["OLD_STRUCTURE_BACKUP"] ++ p.drop (vault.length + 1)

/-- The best-representative scan (source lines 93–100): `none` when a
file cannot be read; `some (none, 0)` when no file has a positive
parsed `message_count` (the `best_file = None` state). -/
def selectBest (fs : MFS) (paths : List (List String)) :
    Option (Option (List String) × Int) :=
  paths.foldlM
    (fun (st : Option (List String) × Int) p =>
      match readFileFS fs p with
      | none => none
      | some content =>
        let c := migrateMsgCount content
        if st.2 < c then some (some p, c) else some st)
    (none, 0)

def moveAllToBackup (vault : List String) (fs : MFS)
    (paths : List (List String)) : Option MFS :=
  paths.foldlM (fun s p => moveFS s p (backupPathOf vault p)) fs

/-- Processing of one session-key group (source lines 89–143); `none`
models an exception escaping the loop body (there is no local `try`). -/
def processGroup (vault : List String) (fs : MFS)
    (g : String × List (List String)) : Option MFS :=
  let (sid, files) := g
  if 1 < files.length then
    match selectBest fs files with
    | none => none
    | some (none, _) => none
    | some (some bf, _) =>
      match partsIdx5 bf with
      | none => none
      | some dev =>
        match copy2FS fs bf (getNewPath sid dev vault) with
        | none => none
        | some fs1 => moveAllToBackup vault fs1 files
  else
    match files with
    | [f] =>
      match partsIdx5 f with
      | none => none
      | some dev =>
        match copy2FS fs f (getNewPath sid dev vault) with
        | none => none
        | some fs1 => moveFS fs1 f (backupPathOf vault f)
    | _ => some fs

/-- Sequential group processing.  The `Bool` is `true` when an uncaught
exception aborted the run; the partial effects up to that point are
kept, and the remaining groups are left unprocessed (the source has no
per-group exception handling). -/
def processGroups (vault : List String) :
    MFS → List (String × List (List String)) → MFS × Bool
  | fs, [] => (fs, false)
  | fs, g :: gs =>
    match processGroup vault fs g with
    | none => (fs, true)
    | some fs' => processGroups vault fs' gs

/-- The whole consolidation run of `migrate-duplicates.py` `main`
(empty-directory pruning has no file-level effect and is not
modelled). -/
def runMigrate (vault : List String) (fs : MFS) : MFS × Bool :=
  processGroups vault fs (groupBySid (allMdFiles vault fs))

/-- Resulting artifacts: the files below `vault/Devices` (backups live
below `vault/OLD_STRUCTURE_BACKUP`). -/
def devicesArtifacts (vault : List String) (fs : MFS) : MFS :=
  fs.filter fun f => pathUnder (vault ++ ["Devices"]) f.path

/-- The artifacts recording a given session key. -/
def artifactsWithKey (vault : List String) (fs : MFS) (sid : String) : MFS :=
  (devicesArtifacts vault fs).filter fun f =>
    extractSessionIdLines f.content = some sid

/-!
# Theorems for the specification claims
-/

/-! ## C8 — tool-result truncation in the Content Normalizer -/

theorem renderToolResultStr (c : String) :
    extractContent (Json.obj [("content", Json.arr
      [Json.obj [("type", Json.str "tool_result"), ("content", Json.str c)]])])
    = some (String.intercalate "\n" ["\n**[Result]**",
        "```\n" ++
          (if 1000 < c.length then
            String.mk (c.data.take 1000) ++ "...\n[truncated]" else c) ++
          "\n```"]) := by
  by_cases h : 1000 < c.length <;>
    simp [extractContent, jsonFalsy, pyInKey, dictGet?, pySubscript,
      extractListParts, extractItemParts, dictGetD, pyStrJson, pyLen, pyTake,
      joinParts, h, String.intercalate, instBEqJson, Json.beq]

theorem renderToolResultList (t : String) (others : List Json) :
    extractContent (Json.obj [("content", Json.arr
      [Json.obj [("type", Json.str "tool_result"),
                 ("content", Json.arr (Json.obj [("text", Json.str t)] ::
                   others))]])])
    = some (String.intercalate "\n" ["\n**[Result]**",
        "```\n" ++
          (if 1000 < t.length then
            String.mk (t.data.take 1000) ++ "...\n[truncated]" else t) ++
          "\n```"]) := by
  by_cases h : 1000 < t.length <;>
    simp [extractContent, jsonFalsy, pyInKey, dictGet?, pySubscript,
      extractListParts, extractItemParts, dictGetD, pyStrJson, pyLen, pyTake,
      joinParts, h, String.intercalate, instBEqJson, Json.beq]

/-- C8: for every tool-result part the Content Normalizer renders the
result header followed by a fenced block whose body is the result
content truncated to its first 1000 characters, with the truncation
marker appended if and only if the content exceeds 1000 characters; a
non-empty list result uses only the first element's text; a
1500-character body renders as exactly its first 1000 characters plus
the marker, and a 999-character body renders unmodified. -/
theorem C8_tool_result_truncation :
    (∀ (c : String),
      extractContent (Json.obj [("content", Json.arr
        [Json.obj [("type", Json.str "tool_result"),
                   ("content", Json.str c)]])])
      = some (String.intercalate "\n" ["\n**[Result]**",
          "```\n" ++
            (if 1000 < c.length then
              String.mk (c.data.take 1000) ++ "...\n[truncated]" else c) ++
            "\n```"])) ∧
    (∀ (t : String) (others : List Json),
      extractContent (Json.obj [("content", Json.arr
        [Json.obj [("type", Json.str "tool_result"),
                   ("content", Json.arr (Json.obj [("text", Json.str t)] ::
                     others))]])])
      = some (String.intercalate "\n" ["\n**[Result]**",
          "```\n" ++
            (if 1000 < t.length then
              String.mk (t.data.take 1000) ++ "...\n[truncated]" else t) ++
            "\n```"])) ∧
    (extractContent (Json.obj [("content", Json.arr
        [Json.obj [("type", Json.str "tool_result"),
                   ("content",
                    Json.str (String.mk (List.replicate 1500 'a')))]])])
      = some (String.intercalate "\n" ["\n**[Result]**",
          "```\n" ++
            (String.mk (List.replicate 1000 'a') ++ "...\n[truncated]") ++
            "\n```"])) ∧
    (extractContent (Json.obj [("content", Json.arr
        [Json.obj [("type", Json.str "tool_result"),
                   ("content",
                    Json.str (String.mk (List.replicate 999 'a')))]])])
      = some (String.intercalate "\n" ["\n**[Result]**",
          "```\n" ++ String.mk (List.replicate 999 'a') ++ "\n```"])) := by
  refine ⟨renderToolResultStr, renderToolResultList, ?_, ?_⟩
  · rw [renderToolResultStr]
    simp [String.length, List.take_replicate]
  · rw [renderToolResultStr]
    simp [String.length]

/-! ## C2 — monotone `first_seen` carried forward by the Reconciler -/

theorem renderArtifact_firstSeenLine (env : ConvEnv) (cd : CoreData)
    (fsJ : Json) :
    (renderArtifact env cd fsJ).get? 5 = some ("first_seen: " ++ pyStrJson fsJ) :=
  rfl

theorem convertCore_shape (raw : List String) (pd : String) (env : ConvEnv)
    (cd : CoreData) (h : convertCore raw pd env = some cd) :
    ∃ l0 rest feo,
      preprocessLines raw = l0 :: rest ∧
      jsonLoads l0 = some (Json.obj feo) ∧
      cd.firstTsJ = dictGetD feo "timestamp" (Json.str "") ∧
      resolveSessionId (l0 :: rest) feo pd = some cd.sessionId ∧
      cd.msgCount = (l0 :: rest).length := by
  simp only [convertCore] at h
  rcases hpre : preprocessLines raw with _ | ⟨l0, rest⟩ <;> simp only [hpre] at h
  · simp at h
  · refine ⟨l0, rest, ?_⟩
    split at h
    · simp at h
    · rename_i firstE hfe
      split at h
      · simp at h
      · rename_i lastE hle
        split at h
        · rename_i feo
          split at h
          · simp at h
          · rename_i sid hsid
            split at h
            · rename_i leo
              split at h
              · simp at h
              · rename_i pps hpps
                split at h
                · simp at h
                · rename_i tools htools
                  split at h
                  · simp at h
                  · rename_i msgs hmsgs
                    cases h
                    exact ⟨feo, rfl, hfe ▸ rfl, rfl, hsid, rfl⟩
            · simp at h
        · simp at h

/-- C2: when an existing artifact records a `first_seen` value, every
reconciliation carries that value into the new artifact unchanged (it
neither regresses nor advances); when there is no existing artifact,
the emitted `first_seen` is the raw `timestamp` of the log's first
entry. -/
theorem C2_first_seen_reconciliation :
    (∀ (raw : List String) (pd : String) (E : List String) (env : ConvEnv)
        (v : String) (sid : String) (md : List String),
      mdLookup (readExistingMetadataLines E) "first_seen" = some v →
      convertConversation raw pd (some E) env = some (sid, md) →
      md.get? 5 = some ("first_seen: " ++ v)) ∧
    (∀ (raw : List String) (pd : String) (env : ConvEnv) (sid : String)
        (md : List String),
      convertConversation raw pd none env = some (sid, md) →
      ∃ l0 rest feo,
        preprocessLines raw = l0 :: rest ∧
        jsonLoads l0 = some (Json.obj feo) ∧
        md.get? 5 = some ("first_seen: " ++
          pyStrJson (dictGetD feo "timestamp" (Json.str "")))) := by
  constructor
  · intro raw pd E env v sid md hv hconv
    simp only [convertConversation, Option.map_eq_some'] at hconv
    obtain ⟨cd, hcd, heq⟩ := hconv
    obtain ⟨hsid, hmd⟩ := Prod.mk.injEq .. ▸ heq
    subst hmd
    rw [renderArtifact_firstSeenLine]
    simp [firstSeenOf, hv, pyStrJson]
  · intro raw pd env sid md hconv
    simp only [convertConversation, Option.map_eq_some'] at hconv
    obtain ⟨cd, hcd, heq⟩ := hconv
    obtain ⟨hsid, hmd⟩ := Prod.mk.injEq .. ▸ heq
    subst hmd
    obtain ⟨l0, rest, feo, hpre, hl0, hts, _, _⟩ :=
      convertCore_shape raw pd env cd hcd
    exact ⟨l0, rest, feo, hpre, hl0, by
      rw [renderArtifact_firstSeenLine]
      simp [firstSeenOf, hts]⟩

/-- The concrete log, existing artifact and environment used by the C2
witness. -/
def c2wLog : List String := ["\x7b\"sessionId\": \"abcd\", \"timestamp\": \"T1\"\x7d"]

def c2wExisting : List String := ["---", "first_seen: T0", "---"]

def c2wEnv : ConvEnv := ⟨"D", "P", ⟨2000, 1, 1, 0, 0, 0, 0⟩⟩

def c2wMd : List String :=
  ["---", "# Obsidian Bases Properties", "device: D", "platform: P",
   "user: unknown", "first_seen: T0", "last_updated: T1", "date: 2000-01-01",
   "session_id: abcd", "project_path: /home/x", "project_name: x",
   "conversation_title: Session abcd", "message_count: 1", "tools_used: []",
   "tags: []", "duration_minutes: 0", "model: unknown", "status: active",
   "has_errors: false", "---", "", "# Session abcd", "", "**Session:** `abcd`",
   "**Device:** D | **Platform:** P",
   "**Started:** 2000-01-01 00:00:00 | **Updated:** 2000-01-01 00:00:00",
   "**Project:** `/home/x`", "**Duration:** 0 minutes | **Messages:** 1", "",
   "---", ""]

/-- Witness for C2: a concrete reconciliation against an existing
artifact recording `first_seen: T0` emits `first_seen: T0` again, even
though the log's own first timestamp is `T1`. -/
theorem C2_first_seen_reconciliation_witness :
    convertConversation c2wLog "-home-x" (some c2wExisting) c2wEnv
      = some ("abcd", c2wMd) ∧
    c2wMd.get? 5 = some ("first_seen: " ++ "T0") :=
  ⟨by decide, C2_first_seen_reconciliation.1 c2wLog "-home-x" c2wExisting c2wEnv
    "T0" "abcd" c2wMd (by decide) (by decide)⟩

/-! ## C7 — derived duration in whole minutes -/

/-- The duration the claim specifies: `floor((last − first) seconds / 60)`
clamped to at least 0 (so never negative). -/
def claimDurationMinutes (first last : PyDateTime) : Int :=
  max 0 (((last.toMicro : Int) - (first.toMicro : Int)) / 60000000)

def c7Log : List String :=
  ["\x7b\"sessionId\": \"negdur01\", \"timestamp\": \"2025-06-01T10:02:00\"\x7d",
   "\x7b\"timestamp\": \"2025-06-01T10:00:00\"\x7d"]

def c7Env : ConvEnv := ⟨"D", "P", ⟨2000, 1, 1, 0, 0, 0, 0⟩⟩

/-- C7 counterexample: a log whose last timestamp precedes its first by
two minutes renders `duration_minutes: -2` — the code truncates toward
zero and never clamps, so the reported duration is negative, while the
claimed formula yields 0. -/
theorem C7_duration_counterexample :
    (convertConversation c7Log "-home-x" none c7Env).map
        (fun p => p.2.get? 15) = some (some "duration_minutes: -2") ∧
    pyDurationMinutes ⟨2025, 6, 1, 10, 2, 0, 0⟩ ⟨2025, 6, 1, 10, 0, 0, 0⟩ = -2 ∧
    claimDurationMinutes ⟨2025, 6, 1, 10, 2, 0, 0⟩ ⟨2025, 6, 1, 10, 0, 0, 0⟩ = 0 ∧
    ¬ (0 : Int) ≤ -2 := by
  refine ⟨by decide, by decide, by decide, by decide⟩

/-- C7 amended: the derived duration is Python `int()` truncation toward
zero of (last − first)/60 s with no clamping.  When the last timestamp
does not precede the first, this equals the claimed clamped floor and
is non-negative; when it does precede, the result is negative (see the
counterexample). -/
theorem C7_duration_amended :
    (∀ a b : PyDateTime, a.toMicro ≤ b.toMicro →
      pyDurationMinutes a b = claimDurationMinutes a b ∧
      pyDurationMinutes a b = ((b.toMicro - a.toMicro) / 60000000 : Nat) ∧
      0 ≤ pyDurationMinutes a b) ∧
    (∀ a b : PyDateTime,
      pyDurationMinutes a b =
        truncDivInt ((b.toMicro : Int) - (a.toMicro : Int)) 60000000) := by
  constructor
  · intro a b hab
    have hd : (0 : Int) ≤ (b.toMicro : Int) - (a.toMicro : Int) := by
      omega
    have htn : ((b.toMicro : Int) - (a.toMicro : Int)).toNat
        = b.toMicro - a.toMicro := by
      omega
    have hpy : pyDurationMinutes a b
        = (((b.toMicro - a.toMicro) / 60000000 : Nat) : Int) := by
      rw [pyDurationMinutes, truncDivInt, if_pos hd, htn]
    refine ⟨?_, hpy, by rw [hpy]; exact Int.natCast_nonneg _⟩
    rw [hpy, claimDurationMinutes]
    rw [max_eq_right]
    · rw [Int.natCast_div]
      push_cast
      omega
    · exact Int.ediv_nonneg hd (by norm_num)
  · intro a b
    rfl

/-- Witness for C7's amended statement at a concrete pair of instants
two minutes apart. -/
theorem C7_duration_amended_witness :
    pyDurationMinutes ⟨2025, 6, 1, 10, 0, 30, 0⟩ ⟨2025, 6, 1, 10, 2, 45, 0⟩
        = claimDurationMinutes ⟨2025, 6, 1, 10, 0, 30, 0⟩
            ⟨2025, 6, 1, 10, 2, 45, 0⟩ ∧
    claimDurationMinutes ⟨2025, 6, 1, 10, 0, 30, 0⟩ ⟨2025, 6, 1, 10, 2, 45, 0⟩
        = 2 :=
  ⟨(C7_duration_amended.1 ⟨2025, 6, 1, 10, 0, 30, 0⟩ ⟨2025, 6, 1, 10, 2, 45, 0⟩
      (by decide)).1, by decide⟩

/-! ## C1 — synthesized session identity -/

/-- The synthesized-key construction as §4.3 of the specification words
it (refinement comparator for C1): the snippet is the first user
entry's first 100 characters *via the Content Normalizer*, and the
project directory name is *decoded* before digesting. -/
def specFirstUserSnippet : List String → String
  | [] => ""
  | l :: rest =>
    match jsonLoads l with
    | some (Json.obj eo) =>
      if dictGetD eo "type" Json.null == Json.str "user" then
        pyTake 100 ((extractContent (dictGetD eo "message" (Json.str ""))).getD "")
      else specFirstUserSnippet rest
    | _ => specFirstUserSnippet rest

/-- The resolver as the specification describes it (C1 comparator). -/
def specResolveSessionId (lines : List String) (parentDir : String) : String :=
  "unknown_" ++ pyTake 12 (md5HexOfString
    (decodeProjectPath parentDir ++ ":" ++ specFirstUserSnippet (lines.take 10)))

def c1Log : List String :=
  ["\x7b\"type\": \"user\", \"message\": \x7b\"content\": \"Fix the bug\"\x7d\x7d"]

def c1Env : ConvEnv := ⟨"D", "P", ⟨2000, 1, 1, 0, 0, 0, 0⟩⟩

/-- C1 counterexample: for a log with no session id in project
directory `-home-josh-app`, the code derives the key from the *raw*
(encoded) directory name and the Python stringification of the message
object, not from the decoded directory and the Content Normalizer's
extraction as claimed; the two constructions yield different keys. -/
theorem C1_resolver_counterexample :
    (convertConversation c1Log "-home-josh-app" none c1Env).map (fun p => p.1)
        = some "unknown_c080761e92c9" ∧
    specResolveSessionId (preprocessLines c1Log) "-home-josh-app"
        = "unknown_bebd0353bbad" ∧
    ("unknown_c080761e92c9" : String) ≠ "unknown_bebd0353bbad" :=
  ⟨by decide, by decide, by decide⟩

/-- Shared helper: the resolver's synthesized-key equation when the
source provides no usable session id. -/
theorem resolveSessionId_unknown (lines : List String)
    (feo : List (String × Json)) (pd : String)
    (h : dictGetD feo "sessionId" (Json.str "unknown") = Json.str "unknown") :
    resolveSessionId lines feo pd =
      some ("unknown_" ++ pyTake 12 (md5HexOfString
        (pd ++ ":" ++ firstMsgForIdAux (lines.take 10)))) := by
  simp [resolveSessionId, h, instBEqJson, Json.beq]

/-- C1 amended: when the first entry has no session id (or the literal
`unknown`), the key is the fixed prefix plus the first 12 hex digits of
the MD5 digest of the *encoded* project directory name, `:`, and the
first user entry's message rendered by Python `str()` and truncated to
100 characters (not the Content Normalizer, and not the decoded
directory); the key is a function of exactly that pair, so it is
independent of the log's filesystem path, machine and run time. -/
theorem C1_resolver_amended :
    (∀ (lines : List String) (feo : List (String × Json)) (pd : String),
      dictGetD feo "sessionId" (Json.str "unknown") = Json.str "unknown" →
      resolveSessionId lines feo pd =
        some ("unknown_" ++ pyTake 12 (md5HexOfString
          (pd ++ ":" ++ firstMsgForIdAux (lines.take 10))))) ∧
    (∀ (lines lines' : List String) (feo feo' : List (String × Json))
        (pd : String),
      dictGetD feo "sessionId" (Json.str "unknown") = Json.str "unknown" →
      dictGetD feo' "sessionId" (Json.str "unknown") = Json.str "unknown" →
      firstMsgForIdAux (lines.take 10) = firstMsgForIdAux (lines'.take 10) →
      resolveSessionId lines feo pd = resolveSessionId lines' feo' pd) := by
  constructor
  · exact resolveSessionId_unknown
  · intro lines lines' feo feo' pd h h' hmsg
    simp [resolveSessionId, h, h', hmsg, instBEqJson, Json.beq]

/-- Witness for C1's amended statement: the concrete log of the
counterexample yields exactly the key the amended formula predicts. -/
theorem C1_resolver_amended_witness :
    resolveSessionId (preprocessLines c1Log)
        [("type", Json.str "user"),
         ("message", Json.obj [("content", Json.str "Fix the bug")])]
        "-home-josh-app"
      = some ("unknown_" ++ pyTake 12 (md5HexOfString ("-home-josh-app" ++ ":" ++
          firstMsgForIdAux ((preprocessLines c1Log).take 10)))) ∧
    "unknown_" ++ pyTake 12 (md5HexOfString ("-home-josh-app" ++ ":" ++
        firstMsgForIdAux ((preprocessLines c1Log).take 10)))
      = "unknown_c080761e92c9" :=
  ⟨(C1_resolver_amended.1 (preprocessLines c1Log)
      [("type", Json.str "user"),
       ("message", Json.obj [("content", Json.str "Fix the bug")])]
      "-home-josh-app" (by decide)),
   by decide⟩

/-! ## C9 — every log yields an artifact (missing identity material) -/

/-- C9 counterexample: a readable log consisting of blank lines (and
likewise an empty one) produces *no* artifact — conversion returns
before any artifact is written — contradicting "no input log is left
without an output artifact". -/
theorem C9_no_artifact_counterexample :
    convertConversation ["", "   "] "-home-x" none
        ⟨"D", "P", ⟨2000, 1, 1, 0, 0, 0, 0⟩⟩ = none ∧
    convertConversation [] "-home-x" none
        ⟨"D", "P", ⟨2000, 1, 1, 0, 0, 0, 0⟩⟩ = none :=
  ⟨by decide, by decide⟩

/-- C9 amended: for a log whose first entry carries no usable session
id, the resolver never fails: when no user message is found in the
first ten lines it synthesizes the key from the empty-string snippet
(`digest(parentDir ++ ":")`); but an empty (or blank-only) log yields
no artifact at all, so the claim's universal "every readable input log
produces some artifact" holds only for logs that are non-empty (and
whose conversion does not otherwise raise). -/
theorem C9_empty_snippet_amended :
    (∀ (lines : List String) (feo : List (String × Json)) (pd : String),
      dictGetD feo "sessionId" (Json.str "unknown") = Json.str "unknown" →
      firstMsgForIdAux (lines.take 10) = "" →
      resolveSessionId lines feo pd =
        some ("unknown_" ++ pyTake 12 (md5HexOfString (pd ++ ":")))) ∧
    (∀ (pd : String) (existing : Option (List String)) (env : ConvEnv),
      convertConversation [] pd existing env = none) := by
  constructor
  · intro lines feo pd h hmsg
    have h1 := resolveSessionId_unknown lines feo pd h
    rw [h1, hmsg]
    simp
  · intro pd existing env
    rfl

/-- Witness for C9's amended statement: a log whose only entry is `{}`
(no session id, no user message) still receives a synthesized key. -/
theorem C9_empty_snippet_amended_witness :
    resolveSessionId ["\x7b\x7d"] [] "-home-x"
        = some ("unknown_" ++ pyTake 12 (md5HexOfString ("-home-x" ++ ":"))) ∧
    "unknown_" ++ pyTake 12 (md5HexOfString ("-home-x" ++ ":"))
        = "unknown_db53b5c8f742" ∧
    (convertConversation ["\x7b\x7d"] "-home-x" none
        ⟨"D", "P", ⟨2000, 1, 1, 0, 0, 0, 0⟩⟩).isSome = true :=
  ⟨C9_empty_snippet_amended.1 ["\x7b\x7d"] [] "-home-x" (by decide) (by decide),
   by decide, by decide⟩

/-! ## C3 — idempotent reconciliation -/

def c3Log : List String :=
  ["\x7b\"sessionId\": \"abc123ok\", \"type\": \"user\", \"message\": \"hello\", \"timestamp\": \" 2025-06-01T10:00:00\"\x7d"]

def c3Env : ConvEnv := ⟨"DEV", "PLAT", ⟨1999, 1, 1, 0, 0, 0, 0⟩⟩

def c3Run1 : Option (String × String) :=
  convertArtifact c3Log "-home-josh-app" none c3Env

def c3Run2 : Option (String × String) :=
  convertArtifact c3Log "-home-josh-app"
    (c3Run1.map (fun p => pySplitLines p.2)) c3Env

/-- C3 counterexample: converting the same source log twice — the
second run reading the artifact written by the first — is *not*
byte-identical when the first entry's raw timestamp carries leading
whitespace: run 1 writes `first_seen:  2025-06-01T10:00:00` (two
spaces), which reads back stripped, so run 2 writes
`first_seen: 2025-06-01T10:00:00`. -/
theorem C3_idempotence_counterexample :
    c3Run1.isSome = true ∧ c3Run2.isSome = true ∧ c3Run1 ≠ c3Run2 ∧
    c3Run1.map (fun p => (pySplitLines p.2).get? 5)
      = some (some "first_seen:  2025-06-01T10:00:00") ∧
    c3Run2.map (fun p => (pySplitLines p.2).get? 5)
      = some (some "first_seen: 2025-06-01T10:00:00") :=
  ⟨by decide, by decide, by decide, by decide, by decide⟩

/-- C3 amended: reconciliation is idempotent exactly when the recorded
`first_seen` survives the metadata read-back unchanged — i.e. when the
log's raw first timestamp is a string that frontmatter parsing returns
verbatim (in particular, free of surrounding whitespace and newlines).
Under that read-back hypothesis the second run, reading the artifact
written by the first, produces byte-identical output; the
counterexample shows the hypothesis is also necessary. -/
theorem C3_idempotence_amended (raw : List String) (pd : String)
    (env : ConvEnv) (cd : CoreData) (v : String)
    (hcd : convertCore raw pd env = some cd)
    (hread : mdLookup (readExistingMetadataLines
        (pySplitLines (artifactText (renderArtifact env cd cd.firstTsJ))))
        "first_seen" = some v)
    (hts : cd.firstTsJ = Json.str v) :
    convertConversation raw pd
        (some (pySplitLines (artifactText (renderArtifact env cd cd.firstTsJ))))
        env
      = convertConversation raw pd none env := by
  simp only [convertConversation, hcd, Option.map_some']
  rw [hts] at hread
  have : firstSeenOf
      (some (readExistingMetadataLines
        (pySplitLines (artifactText (renderArtifact env cd cd.firstTsJ)))))
      cd.firstTsJ = firstSeenOf none cd.firstTsJ := by
    rw [hts]
    simp [firstSeenOf, hread]
  rw [this]
  rfl

def c3wLog : List String :=
  ["\x7b\"sessionId\": \"abc123ok\", \"type\": \"user\", \"message\": \"hello\", \"timestamp\": \"2025-06-01T10:00:00\"\x7d"]

def c3wCd : CoreData :=
  { sessionId := "abc123ok",
    firstTsJ := Json.str "2025-06-01T10:00:00",
    lastTsJ := Json.str "2025-06-01T10:00:00",
    userTypeJ := Json.str "unknown",
    modelJ := Json.str "unknown",
    firstTime := "10:00:00",
    firstDate := "2025-06-01",
    lastTime := "10:00:00",
    lastDate := "2025-06-01",
    durationMinutes := 0,
    projectPathStr := "/home/josh/app",
    projectName := "app",
    conversationTitle := "Session abc123ok",
    msgCount := 1,
    toolsUsed := [],
    tags := [],
    status := "active",
    hasErrors := false,
    msgLines := ["## 🧑 User [2025-06-01 10:00:00]", "", ""] }

/-- Witness for C3's amended statement: for a log with a clean first
timestamp the read-back hypothesis holds and the two runs agree. -/
theorem C3_idempotence_amended_witness :
    convertConversation c3wLog "-home-josh-app"
        (some (pySplitLines
          (artifactText (renderArtifact c3Env c3wCd c3wCd.firstTsJ)))) c3Env
      = convertConversation c3wLog "-home-josh-app" none c3Env :=
  C3_idempotence_amended c3wLog "-home-josh-app" c3Env c3wCd
    "2025-06-01T10:00:00" (by decide) (by decide) (by decide)

/-! ## C5 — fault isolation across consolidation groups -/

def c5Vault : List String := ["/", "data", "B"]

def c5F1 : MFile :=
  ⟨c5Vault ++ ["Devices", "B", "go", "good77.md"],
   ["---", "session_id: good77", "message_count: 4", "---", "body1"]⟩

def c5F2 : MFile :=
  ⟨c5Vault ++ ["Devices", "DEV", "2025", "06", "03", "h1.md"],
   ["---", "session_id: heal55", "message_count: 4", "---", "body2"]⟩

def c5F3 : MFile :=
  ⟨c5Vault ++ ["Devices", "DEV", "2025", "06", "04", "h2.md"],
   ["---", "session_id: heal55", "message_count: 9", "---", "body3"]⟩

def c5FS : MFS := [c5F1, c5F2, c5F3]

/-- C5 counterexample: the first enumerated group fails while copying
(`shutil.copy2` raises `SameFileError` because the artifact already
sits at its canonical path), and the run aborts: the later `heal55`
group is never processed and its two duplicates survive — the failure
is *not* isolated to the failing group. -/
theorem C5_group_failure_counterexample :
    runMigrate c5Vault c5FS = (c5FS, true) ∧
    (artifactsWithKey c5Vault c5FS "heal55").length = 2 :=
  ⟨by decide, by decide⟩

/-- C5 amended: the consolidator has no per-group exception handling:
the first group whose processing raises aborts the whole run at that
point — the filesystem keeps only the effects of the groups already
processed, and every later group is left unprocessed. -/
theorem C5_first_failure_aborts (vault : List String)
    (gs1 : List (String × List (List String)))
    (g : String × List (List String))
    (gs2 : List (String × List (List String))) (fs fs1 : MFS)
    (h1 : processGroups vault fs gs1 = (fs1, false))
    (h2 : processGroup vault fs1 g = none) :
    processGroups vault fs (gs1 ++ g :: gs2) = (fs1, true) := by
  induction gs1 generalizing fs with
  | nil =>
    simp only [processGroups] at h1
    cases h1
    simp [processGroups, h2]
  | cons g0 t ih =>
    simp only [processGroups, List.cons_append] at h1 ⊢
    rcases hg0 : processGroup vault fs g0 with _ | fs'
    · rw [hg0] at h1
      simp at h1
    · rw [hg0] at h1
      exact ih fs' h1

/-- Witness for C5's amended statement on the concrete tree of the
counterexample: the failing `good77` group occurs first, so nothing is
processed and the run aborts immediately. -/
theorem C5_first_failure_aborts_witness :
    processGroups c5Vault c5FS
        ([] ++ ("good77", [c5F1.path]) ::
          [("heal55", [c5F2.path, c5F3.path])]) = (c5FS, true) :=
  C5_first_failure_aborts c5Vault [] ("good77", [c5F1.path])
    [("heal55", [c5F2.path, c5F3.path])] c5FS c5FS (by decide) (by decide)

/-! ## C10 — best-representative selection precondition -/

/-- Behaviour of the best-file scan for an arbitrary starting state. -/
theorem selectBest_go_spec (fs : MFS) (files : List (List String))
    (b0 : Option (List String)) (c0 : Int)
    (hread : ∀ p ∈ files, (readFileFS fs p).isSome) :
    ∃ b c, files.foldlM
        (fun (st : Option (List String) × Int) p =>
          match readFileFS fs p with
          | none => none
          | some content =>
            let cc := migrateMsgCount content
            if st.2 < cc then some (some p, cc) else some st)
        (b0, c0) = some (b, c) ∧
      c0 ≤ c ∧
      (∀ p ∈ files, ∀ cc, readFileFS fs p = some cc →
        migrateMsgCount cc ≤ c) ∧
      ((b = b0 ∧ c = c0) ∨
       (∃ p ∈ files, ∃ cc, readFileFS fs p = some cc ∧ b = some p ∧
          c = migrateMsgCount cc ∧ c0 < c)) := by
  induction files generalizing b0 c0 with
  | nil => exact ⟨b0, c0, rfl, le_refl _, by simp, Or.inl ⟨rfl, rfl⟩⟩
  | cons p t ih =>
    obtain ⟨cont, hc⟩ := Option.isSome_iff_exists.mp (hread p (by simp))
    by_cases hlt : c0 < migrateMsgCount cont
    · obtain ⟨b, c, hfold, hle, hmax, hdisj⟩ :=
        ih (some p) (migrateMsgCount cont)
          (fun q hq => hread q (by simp [hq]))
      refine ⟨b, c, ?_, le_of_lt (lt_of_lt_of_le hlt hle), ?_, ?_⟩
      · simp only [List.foldlM_cons, hc, if_pos hlt]
        exact hfold
      · intro q hq cc hcc
        rcases List.mem_cons.mp hq with hq | hq
        · rw [hq] at hcc
          rw [hc] at hcc
          cases hcc
          exact hle
        · exact hmax q hq cc hcc
      · rcases hdisj with ⟨hb, hcval⟩ | ⟨q, hq, cc, hcc, hb, hcval, _⟩
        · exact Or.inr ⟨p, by simp, cont, hc, hb, hcval,
            lt_of_lt_of_eq hlt hcval.symm⟩
        · exact Or.inr ⟨q, by simp [hq], cc, hcc, hb, hcval,
            lt_of_lt_of_le hlt (hcval ▸ hle)⟩
    · obtain ⟨b, c, hfold, hle, hmax, hdisj⟩ :=
        ih b0 c0 (fun q hq => hread q (by simp [hq]))
      refine ⟨b, c, ?_, hle, ?_, ?_⟩
      · simp only [List.foldlM_cons, hc, if_neg hlt]
        exact hfold
      · intro q hq cc hcc
        rcases List.mem_cons.mp hq with hq | hq
        · rw [hq, hc] at hcc
          cases hcc
          exact le_trans (not_lt.mp hlt) hle
        · exact hmax q hq cc hcc
      · rcases hdisj with ⟨hb, hcval⟩ | ⟨q, hq, cc, hcc, hb, hcval, hgt⟩
        · exact Or.inl ⟨hb, hcval⟩
        · exact Or.inr ⟨q, by simp [hq], cc, hcc, hb, hcval, hgt⟩

/-- C10: over a group of readable artifacts, the best-representative
scan returns a representative iff some artifact has a parsed
`message_count` strictly greater than 0; when every count is 0 (or
missing/unparseable, both of which parse to 0, or negative), no
representative is selected and the subsequent copy step — handed the
null representative — raises, aborting the group (`processGroup`
errors). -/
theorem C10_null_best_selection :
    (∀ (fs : MFS) (files : List (List String)),
      (∀ p ∈ files, (readFileFS fs p).isSome) →
      ((∃ p c, selectBest fs files = some (some p, c)) ↔
        ∃ p ∈ files, ∃ cc, readFileFS fs p = some cc ∧
          0 < migrateMsgCount cc)) ∧
    (∀ (vault : List String) (fs : MFS) (sid : String)
        (files : List (List String)) (c : Int),
      1 < files.length →
      selectBest fs files = some (none, c) →
      processGroup vault fs (sid, files) = none) := by
  constructor
  · intro fs files hread
    obtain ⟨b, c, hfold, hle, hmax, hdisj⟩ :=
      selectBest_go_spec fs files none 0 hread
    constructor
    · rintro ⟨p, cval, hsel⟩
      rw [selectBest, hfold] at hsel
      cases hsel
      rcases hdisj with ⟨hb, _⟩ | ⟨q, hq, cc, hcc, hb, hcval, hpos⟩
      · exact absurd hb (by simp)
      · exact ⟨q, hq, cc, hcc, hcval ▸ hpos⟩
    · rintro ⟨p, hp, cc, hcc, hpos⟩
      rcases hdisj with ⟨hb, hcval⟩ | ⟨q, hq, cc', hcc', hb, hcval, hgt⟩
      · exact absurd (hmax p hp cc hcc) (by omega)
      · exact ⟨q, c, by rw [selectBest, hfold, hb]⟩
  · intro vault fs sid files c hlen hsel
    simp [processGroup, hlen, hsel]

/-- Witness for C10 at a concrete two-artifact group whose counts are 0
and unparseable: no representative is selected and the group's
processing fails. -/
theorem C10_null_best_selection_witness :
    ((∃ p c, selectBest c5FS [c5F2.path, c5F3.path] = some (some p, c)) ↔
      ∃ p ∈ [c5F2.path, c5F3.path], ∃ cc, readFileFS c5FS p = some cc ∧
        0 < migrateMsgCount cc) ∧
    processGroup c5Vault
        [⟨c5Vault ++ ["Devices", "D", "2025", "06", "01", "z1.md"],
          ["---", "session_id: zz", "message_count: 0", "---"]⟩,
         ⟨c5Vault ++ ["Devices", "D", "2025", "06", "02", "z2.md"],
          ["---", "session_id: zz", "message_count: x", "---"]⟩]
        ("zz",
         [c5Vault ++ ["Devices", "D", "2025", "06", "01", "z1.md"],
          c5Vault ++ ["Devices", "D", "2025", "06", "02", "z2.md"]]) = none :=
  ⟨C10_null_best_selection.1 c5FS [c5F2.path, c5F3.path] (by decide),
   C10_null_best_selection.2 c5Vault _ "zz" _ 0 (by decide) (by decide)⟩

/-! ## C6 — malformed lines: local recovery and its limits -/

theorem getLastD_append_right (A B : List String) (d : String) (hB : B ≠ []) :
    (A ++ B).getLastD d = B.getLastD d := by
  induction A generalizing d with
  | nil => rfl
  | cons a t ih =>
    rcases B with _ | ⟨b0, B'⟩
    · exact absurd rfl hB
    · simp only [List.cons_append]
      rw [List.getLastD_cons, ih a, List.getLastD_cons, List.getLastD_cons]

theorem titleScanAux_skip (A B : List String) (b : String)
    (hb : jsonLoads b = none) :
    titleScanAux (A ++ b :: B) = titleScanAux (A ++ B) := by
  induction A with
  | nil => simp [titleScanAux, hb]
  | cons a t ih =>
    simp only [List.cons_append, titleScanAux, List.append_eq]
    rw [ih]

theorem fullContentAux_skip (A B : List String) (b : String)
    (hb : jsonLoads b = none) :
    fullContentAux (A ++ b :: B) = fullContentAux (A ++ B) := by
  induction A with
  | nil => simp [fullContentAux, hb]
  | cons a t ih =>
    simp only [List.cons_append, fullContentAux, List.append_eq]
    rw [ih]

theorem renderMessagesAux_skip (env : ConvEnv) (A B : List String) (b : String)
    (hb : jsonLoads b = none) :
    renderMessagesAux env (A ++ b :: B) = renderMessagesAux env (A ++ B) := by
  induction A with
  | nil => simp [renderMessagesAux, hb]
  | cons a t ih =>
    simp only [List.cons_append, renderMessagesAux, List.append_eq]
    rw [ih]

theorem extractToolsUsed_skip (A B : List String) (b : String)
    (hb : jsonLoads b = none) :
    extractToolsUsed (A ++ b :: B) = extractToolsUsed (A ++ B) := by
  have hnil : toolNamesOfLine b = [] := by simp [toolNamesOfLine, hb]
  have hmaps : (List.map toolNamesOfLine (A ++ b :: B)).flatten
      = (List.map toolNamesOfLine (A ++ B)).flatten := by
    simp [hnil]
  simp only [extractToolsUsed]
  rw [hmaps]

theorem hasErrorsOf_skip (A B : List String) (b : String)
    (h1 : strIn "error" (pyLower b) = false)
    (h2 : strIn "failed" (pyLower b) = false) :
    hasErrorsOf (A ++ b :: B) = hasErrorsOf (A ++ B) := by
  simp [hasErrorsOf, h1, h2]

theorem preprocessLines_append (x y : List String) :
    preprocessLines (x ++ y) = preprocessLines x ++ preprocessLines y := by
  simp [preprocessLines]

theorem preprocessLines_single_ne (b : String) (h : pyStrip b ≠ "") :
    preprocessLines [b] = [pyStrip b] := by
  simp [preprocessLines, h]

theorem resolveSessionId_congr (L L' : List String)
    (feo : List (String × Json)) (pd : String) (h : L.take 10 = L'.take 10) :
    resolveSessionId L feo pd = resolveSessionId L' feo pd := by
  simp [resolveSessionId, h]

/-- C6 amended: a line that fails to parse as JSON is skipped by every
scanning pass when it lies strictly inside the log — conversion still
succeeds and produces the same artifact data — but the malformed line
*is* included in `message_count` (it is not "counted as absent"), and
(per the counterexample) a malformed first or last line aborts the
whole file's conversion.  Hypotheses: the malformed line is non-blank,
contains no error keywords, sits after the first ten non-blank lines
(so the identity scan window is unchanged) and before a non-blank
suffix. -/
theorem C6_malformed_line_amended (pre post : List String) (bad : String) (pd : String)
    (env : ConvEnv)
    (hbad : jsonLoads (pyStrip bad) = none)
    (hne : pyStrip bad ≠ "")
    (herr1 : strIn "error" (pyLower (pyStrip bad)) = false)
    (herr2 : strIn "failed" (pyLower (pyStrip bad)) = false)
    (h10 : 10 ≤ (preprocessLines pre).length)
    (hB : preprocessLines post ≠ []) :
    convertCore (pre ++ [bad] ++ post) pd env =
      (convertCore (pre ++ post) pd env).map
        (fun cd => { cd with msgCount := cd.msgCount + 1 }) := by
  have hsplit : preprocessLines (pre ++ [bad] ++ post)
      = preprocessLines pre ++ pyStrip bad :: preprocessLines post := by
    rw [preprocessLines_append, preprocessLines_append,
      preprocessLines_single_ne bad hne]
    simp
  have hsplit2 : preprocessLines (pre ++ post)
      = preprocessLines pre ++ preprocessLines post :=
    preprocessLines_append _ _
  rcases hA : preprocessLines pre with _ | ⟨a0, A'⟩
  · rw [hA] at h10
    simp at h10
  · rw [hA] at hsplit hsplit2 h10
    have h10' : 9 ≤ A'.length := by simpa using h10
    rcases hPB : preprocessLines post with _ | ⟨p0, PB'⟩
    · exact absurd hPB hB
    · rw [hPB] at hsplit hsplit2
      have e_last : ((a0 :: A') ++ pyStrip bad :: p0 :: PB').getLastD ""
          = ((a0 :: A') ++ p0 :: PB').getLastD "" := by
        rw [getLastD_append_right _ _ _ (by simp),
          getLastD_append_right _ _ _ (by simp),
          List.getLastD_cons, List.getLastD_cons, List.getLastD_cons]
      have e_take : ((a0 :: A') ++ pyStrip bad :: p0 :: PB').take 10
          = ((a0 :: A') ++ p0 :: PB').take 10 := by
        simp only [List.cons_append, List.take_succ_cons,
          List.take_append_of_le_length h10']
      have e_title := titleScanAux_skip (a0 :: A') (p0 :: PB') (pyStrip bad) hbad
      have e_tools := extractToolsUsed_skip (a0 :: A') (p0 :: PB') (pyStrip bad) hbad
      have e_err := hasErrorsOf_skip (a0 :: A') (p0 :: PB') (pyStrip bad) herr1 herr2
      have e_full := fullContentAux_skip (a0 :: A') (p0 :: PB') (pyStrip bad) hbad
      have e_render := renderMessagesAux_skip env (a0 :: A') (p0 :: PB') (pyStrip bad) hbad
      have e_len : ((a0 :: A') ++ pyStrip bad :: p0 :: PB').length
          = ((a0 :: A') ++ p0 :: PB').length + 1 := by
        simp
        omega
      simp only [convertCore, hsplit, hsplit2, List.cons_append] at *
      have e_resolve : ∀ feo' : List (String × Json),
          resolveSessionId (a0 :: (A' ++ pyStrip bad :: p0 :: PB')) feo' pd
            = resolveSessionId (a0 :: (A' ++ p0 :: PB')) feo' pd :=
        fun feo' => resolveSessionId_congr _ _ feo' pd e_take
      rw [e_last]
      simp only [e_resolve, e_title, e_tools, e_err, e_full, e_render, e_len]
      rcases hj0 : jsonLoads a0
          with _ | (_ | ⟨b1⟩ | ⟨n1⟩ | ⟨s1⟩ | ⟨xs1⟩ | ⟨feo⟩) <;>
        simp only [hj0]
      · rfl
      · cases jsonLoads ((a0 :: (A' ++ p0 :: PB')).getLastD "") <;> rfl
      · cases jsonLoads ((a0 :: (A' ++ p0 :: PB')).getLastD "") <;> rfl
      · cases jsonLoads ((a0 :: (A' ++ p0 :: PB')).getLastD "") <;> rfl
      · cases jsonLoads ((a0 :: (A' ++ p0 :: PB')).getLastD "") <;> rfl
      · cases jsonLoads ((a0 :: (A' ++ p0 :: PB')).getLastD "") <;> rfl
      rcases hjL : jsonLoads ((a0 :: (A' ++ p0 :: PB')).getLastD "")
          with _ | (_ | ⟨b2⟩ | ⟨n2⟩ | ⟨s2⟩ | ⟨xs2⟩ | ⟨leo⟩) <;>
        simp only [hjL]
      · rfl
      · cases resolveSessionId (a0 :: (A' ++ p0 :: PB')) feo pd <;> rfl
      · cases resolveSessionId (a0 :: (A' ++ p0 :: PB')) feo pd <;> rfl
      · cases resolveSessionId (a0 :: (A' ++ p0 :: PB')) feo pd <;> rfl
      · cases resolveSessionId (a0 :: (A' ++ p0 :: PB')) feo pd <;> rfl
      · cases resolveSessionId (a0 :: (A' ++ p0 :: PB')) feo pd <;> rfl
      rcases hsid : resolveSessionId (a0 :: (A' ++ p0 :: PB')) feo pd
          with _ | sid <;> simp only [hsid]
      · rfl
      rcases hpps : (if decodeProjectPath pd ≠ "" ∧ decodeProjectPath pd ≠ "unknown"
          then Json.str (decodeProjectPath pd)
          else dictGetD feo "cwd" (Json.str "unknown")).isStrVal
          with _ | pps <;> simp only [hpps]
      · rfl
      rcases htools : extractToolsUsed (a0 :: (A' ++ p0 :: PB'))
          with _ | tools <;> simp only [htools]
      · rfl
      rcases hrender : renderMessagesAux env (a0 :: (A' ++ p0 :: PB'))
          with _ | msgs <;> simp only [hrender]
      · rfl
      rfl


def c6BadLog : List String :=
  ["oops \x7b", "\x7b\"sessionId\": \"abcd\", \"type\": \"user\"\x7d"]

def c6Env : ConvEnv := ⟨"D", "P", ⟨2000, 1, 1, 0, 0, 0, 0⟩⟩

/-- C6 counterexample: a malformed *first* line is fatal to the whole
conversion — `json.loads(lines[0])` is outside any local handler — even
though the rest of the log is fine: dropping the malformed line makes
the very same conversion succeed.  (A malformed last line fails the
same way via `json.loads(lines[-1])`.) -/
theorem C6_malformed_first_line_counterexample :
    convertConversation c6BadLog "-home-x" none c6Env = none ∧
    (convertConversation (c6BadLog.drop 1) "-home-x" none c6Env).isSome
      = true ∧
    jsonLoads (c6BadLog.getD 0 "") = none :=
  ⟨by decide, by decide, by decide⟩

def c6wPre : List String := List.replicate 10 "\x7b\"sessionId\": \"abcd\"\x7d"

def c6wPost : List String := ["\x7b\"x\": 1\x7d"]

/-- Witness for C6's amended statement: inserting a malformed line into
the middle of a concrete 11-line log leaves the conversion successful
and changes only the message count. -/
theorem C6_malformed_line_amended_witness :
    convertCore (c6wPre ++ ["oops \x7b"] ++ c6wPost) "-home-x" c6Env =
      (convertCore (c6wPre ++ c6wPost) "-home-x" c6Env).map
        (fun cd => { cd with msgCount := cd.msgCount + 1 }) :=
  C6_malformed_line_amended c6wPre c6wPost "oops \x7b" "-home-x" c6Env
    (by decide) (by decide) (by decide) (by decide) (by decide) (by decide)


/-! ## C4 — consolidation 1:1 invariant -/

theorem find?_filter_ne (fs : MFS) (p q : List String) (h : q ≠ p) :
    List.find? (fun f => f.path = q) (fs.filter (fun f => ¬ f.path = p)) =
    List.find? (fun f => f.path = q) fs := by
  induction fs with
  | nil => rfl
  | cons f t ih =>
    rw [List.filter_cons]
    by_cases hfp : f.path = p
    · have h1 : (decide ¬ f.path = p) = false := by simp [hfp]
      have h2 : (decide (f.path = q)) = false := by
        simp only [decide_eq_false_iff_not]
        intro hq
        exact h (by rw [← hq, hfp])
      rw [h1]
      simp only [Bool.false_eq_true, if_false]
      rw [ih, List.find?_cons, h2]
    · have h1 : (decide ¬ f.path = p) = true := by simp [hfp]
      rw [h1]
      simp only [if_true]
      rw [List.find?_cons, List.find?_cons]
      cases hq : (decide (f.path = q)) with
      | true => rfl
      | false => exact ih

theorem readFileFS_set (fs : MFS) (p c q : List String) :
    readFileFS (setFileFS fs p c) q
      = if q = p then some c else readFileFS fs q := by
  by_cases h : q = p
  · subst h
    have hnone : List.find? (fun f => f.path = q)
        (fs.filter (fun f => ¬ f.path = q)) = none := by
      rw [List.find?_eq_none]
      intro x hx
      simp only [List.mem_filter] at hx
      simpa using hx.2
    unfold readFileFS setFileFS removeFileFS
    rw [List.find?_append, hnone, List.find?_cons]
    simp
  · unfold readFileFS setFileFS removeFileFS
    rw [List.find?_append, find?_filter_ne fs p q h, if_neg h, List.find?_cons]
    have h2 : (decide (MFile.path ⟨p, c⟩ = q)) = false := by
      simp only [decide_eq_false_iff_not]
      exact fun hq => h (by rw [← hq])
    rw [h2]
    cases List.find? (fun f => f.path = q) fs <;> rfl

theorem readFileFS_remove (fs : MFS) (p q : List String) :
    readFileFS (removeFileFS fs p) q
      = if q = p then none else readFileFS fs q := by
  by_cases h : q = p
  · subst h
    have hnone : List.find? (fun f => f.path = q)
        (fs.filter (fun f => ¬ f.path = q)) = none := by
      rw [List.find?_eq_none]
      intro x hx
      simp only [List.mem_filter] at hx
      simpa using hx.2
    unfold readFileFS removeFileFS
    rw [hnone, if_pos rfl]
    rfl
  · unfold readFileFS removeFileFS
    rw [find?_filter_ne fs p q h, if_neg h]

theorem moveFS_eq (fs : MFS) (src dst c : List String)
    (h : readFileFS fs src = some c) :
    moveFS fs src dst = some (setFileFS (removeFileFS fs src) dst c) := by
  simp [moveFS, h]

theorem getNewPath_length (sid dev : String) (vault : List String) :
    (getNewPath sid dev vault).length = vault.length + 4 := by
  simp [getNewPath]

theorem getNewPath_take (sid dev : String) (vault : List String) :
    (getNewPath sid dev vault).take (vault.length + 1)
      = vault ++ ["Devices"] := by
  unfold getNewPath
  rw [List.take_append_eq_append_take]
  simp

theorem backupPathOf_take (vault p : List String) :
    (backupPathOf vault p).take (vault.length + 1)
      = vault ++ ["OLD_STRUCTURE_BACKUP"] := by
  unfold backupPathOf
  rw [List.append_assoc, List.take_append_eq_append_take]
  simp

theorem ne_backupPathOf_of_devices (vault p q : List String)
    (hq : q.take (vault.length + 1) = vault ++ ["Devices"]) :
    q ≠ backupPathOf vault p := by
  intro he
  rw [he, backupPathOf_take] at hq
  have := List.append_cancel_left hq
  simp at this

theorem backupPathOf_inj (vault p p' : List String)
    (hp : p.take (vault.length + 1) = vault ++ ["Devices"])
    (hp' : p'.take (vault.length + 1) = vault ++ ["Devices"])
    (h : backupPathOf vault p = backupPathOf vault p') : p = p' := by
  unfold backupPathOf at h
  rw [List.append_assoc, List.append_assoc] at h
  have hdrop := List.append_cancel_left h
  have hdrop' := List.append_cancel_left hdrop
  calc p = p.take (vault.length + 1) ++ p.drop (vault.length + 1) := by
        rw [List.take_append_drop]
    _ = p'.take (vault.length + 1) ++ p'.drop (vault.length + 1) := by
        rw [hp, hp', hdrop']
    _ = p' := by rw [List.take_append_drop]

theorem moveAllToBackup_spec (vault : List String) (fs : MFS)
    (ps : List (List String)) (nodup : ps.Nodup)
    (hunder : ∀ p ∈ ps, p.take (vault.length + 1) = vault ++ ["Devices"])
    (hread : ∀ p ∈ ps, (readFileFS fs p).isSome) :
    ∃ fs', moveAllToBackup vault fs ps = some fs' ∧
      (∀ p ∈ ps, readFileFS fs' (backupPathOf vault p) = readFileFS fs p) ∧
      (∀ p ∈ ps, readFileFS fs' p = none) ∧
      (∀ q, q ∉ ps → (∀ p ∈ ps, q ≠ backupPathOf vault p) →
        readFileFS fs' q = readFileFS fs q) := by
  induction ps generalizing fs with
  | nil =>
    exact ⟨fs, rfl, by simp, by simp, fun q _ _ => rfl⟩
  | cons p0 t ih =>
    obtain ⟨c0, hc0⟩ := Option.isSome_iff_exists.mp (hread p0 (by simp))
    have hstep : moveFS fs p0 (backupPathOf vault p0)
        = some (setFileFS (removeFileFS fs p0) (backupPathOf vault p0) c0) :=
      moveFS_eq fs p0 _ c0 hc0
    set fs1 := setFileFS (removeFileFS fs p0) (backupPathOf vault p0) c0 with hfs1
    have hread1 : ∀ q, readFileFS fs1 q =
        if q = backupPathOf vault p0 then some c0
        else if q = p0 then none else readFileFS fs q := by
      intro q
      rw [hfs1, readFileFS_set, readFileFS_remove]
    have hb0 : p0 ≠ backupPathOf vault p0 :=
      ne_backupPathOf_of_devices vault p0 p0 (hunder p0 (by simp))
    obtain ⟨fs', hfold, hback, hgone, hframe⟩ := ih fs1 nodup.of_cons
      (fun p hp => hunder p (by simp [hp]))
      (fun p hp => by
        rw [hread1]
        have hne1 : p ≠ backupPathOf vault p0 :=
          ne_backupPathOf_of_devices vault p0 p (hunder p (by simp [hp]))
        have hne2 : p ≠ p0 := by
          intro he
          exact (List.nodup_cons.mp nodup).1 (he ▸ hp)
        rw [if_neg hne1, if_neg hne2]
        exact hread p (by simp [hp]))
    refine ⟨fs', ?_, ?_, ?_, ?_⟩
    · simp only [moveAllToBackup, List.foldlM_cons, hstep]
      exact hfold
    · intro p hp
      rcases List.mem_cons.mp hp with rfl | hp
      · have hnb : backupPathOf vault p ∉ t := by
          intro hmem
          exact ne_backupPathOf_of_devices vault p _
            (hunder _ (by simp [hmem])) rfl
        have hnbb : ∀ p' ∈ t, backupPathOf vault p ≠ backupPathOf vault p' := by
          intro p' hp' he
          have := backupPathOf_inj vault p p' (hunder p (by simp))
            (hunder p' (by simp [hp'])) he
          exact (List.nodup_cons.mp nodup).1 (this ▸ hp')
        rw [hframe _ hnb hnbb, hread1, if_pos rfl, hc0]
      · refine (hback p hp).trans ?_
        rw [hread1]
        have hne1 : p ≠ backupPathOf vault p0 :=
          ne_backupPathOf_of_devices vault p0 p (hunder p (by simp [hp]))
        have hne2 : p ≠ p0 := by
          intro he
          exact (List.nodup_cons.mp nodup).1 (he ▸ hp)
        rw [if_neg hne1, if_neg hne2]
    · intro p hp
      rcases List.mem_cons.mp hp with rfl | hp
      · have hnp : p ∉ t := (List.nodup_cons.mp nodup).1
        have hnpb : ∀ p' ∈ t, p ≠ backupPathOf vault p' := fun p' hp' =>
          ne_backupPathOf_of_devices vault p' p (hunder p (by simp))
        rw [hframe _ hnp hnpb, hread1, if_neg hb0, if_pos rfl]
      · exact hgone p hp
    · intro q hq hqb
      have hq1 : q ∉ t := fun hmem => hq (by simp [hmem])
      have hqb1 : ∀ p ∈ t, q ≠ backupPathOf vault p := fun p hp =>
        hqb p (by simp [hp])
      rw [hframe q hq1 hqb1, hread1,
        if_neg (hqb p0 (by simp)), if_neg (fun he => hq (by simp [he]))]

theorem selectBest_congr (fsA fsB : MFS) (ps : List (List String))
    (h : ∀ p ∈ ps, readFileFS fsA p = readFileFS fsB p) :
    selectBest fsA ps = selectBest fsB ps := by
  unfold selectBest
  suffices hgen : ∀ st : Option (List String) × Int,
      ps.foldlM
        (fun (st : Option (List String) × Int) p =>
          match readFileFS fsA p with
          | none => none
          | some content =>
            let cc := migrateMsgCount content
            if st.2 < cc then some (some p, cc) else some st) st =
      ps.foldlM
        (fun (st : Option (List String) × Int) p =>
          match readFileFS fsB p with
          | none => none
          | some content =>
            let cc := migrateMsgCount content
            if st.2 < cc then some (some p, cc) else some st) st by
    exact hgen (none, 0)
  induction ps with
  | nil => intro st; rfl
  | cons p t ih =>
    intro st
    simp only [List.foldlM_cons, h p (by simp)]
    cases hr : readFileFS fsB p with
    | none => rfl
    | some c =>
      simp only []
      by_cases hlt : st.2 < migrateMsgCount c <;>
        simp only [if_pos, if_neg, hlt, if_true, if_false] <;>
        exact ih (fun q hq => h q (by simp [hq])) _

theorem partsIdx5_of_len6 (vault p : List String)
    (hlen : p.length = vault.length + 6) :
    ∃ dev, partsIdx5 p = some dev := by
  have h5 : 5 ≤ p.length := by omega
  have hlt : p.length - 5 < p.length := by omega
  exact ⟨p.get ⟨p.length - 5, hlt⟩, by simp [partsIdx5, h5, List.get?_eq_get hlt]⟩

def keeperOf (fs : MFS) (ps : List (List String)) : Option (List String) :=
  if 1 < ps.length then
    match selectBest fs ps with
    | some (some bp, _) => some bp
    | _ => none
  else ps.head?

theorem processGroup_spec (vault : List String) (fs0 fsC : MFS)
    (sid : String) (ps : List (List String))
    (nodup : ps.Nodup)
    (hne : ps ≠ [])
    (hunder : ∀ p ∈ ps, p.take (vault.length + 1) = vault ++ ["Devices"])
    (hlen : ∀ p ∈ ps, p.length = vault.length + 6)
    (hsame : ∀ p ∈ ps, readFileFS fsC p = readFileFS fs0 p)
    (hread : ∀ p ∈ ps, (readFileFS fs0 p).isSome)
    (hpos : 1 < ps.length → ∃ p ∈ ps, ∃ c, readFileFS fs0 p = some c ∧
      0 < migrateMsgCount c) :
    ∃ fs₂ bp bc dev,
      processGroup vault fsC (sid, ps) = some fs₂ ∧
      keeperOf fs0 ps = some bp ∧
      bp ∈ ps ∧ readFileFS fs0 bp = some bc ∧ partsIdx5 bp = some dev ∧
      (∀ p ∈ ps, ∀ c, readFileFS fs0 p = some c →
        migrateMsgCount c ≤ migrateMsgCount bc) ∧
      readFileFS fs₂ (getNewPath sid dev vault) = some bc ∧
      (∀ p ∈ ps, readFileFS fs₂ (backupPathOf vault p) = readFileFS fs0 p) ∧
      (∀ p ∈ ps, readFileFS fs₂ p = none) ∧
      (∀ q, q ∉ ps → q ≠ getNewPath sid dev vault →
        (∀ p ∈ ps, q ≠ backupPathOf vault p) →
        readFileFS fs₂ q = readFileFS fsC q) := by
  have hreadC : ∀ p ∈ ps, (readFileFS fsC p).isSome := by
    intro p hp
    rw [hsame p hp]
    exact hread p hp
  by_cases hmulti : 1 < ps.length
  · -- duplicate group
    obtain ⟨b, c, hfold, hle, hmax, hdisj⟩ :=
      selectBest_go_spec fs0 ps none 0 hread
    obtain ⟨p1, hp1, c1, hc1, hpos1⟩ := hpos hmulti
    have hbsome : ∃ bp bc, b = some bp ∧ bp ∈ ps ∧
        readFileFS fs0 bp = some bc ∧ c = migrateMsgCount bc := by
      rcases hdisj with ⟨hb, hc0⟩ | ⟨q, hq, cc, hcc, hb, hcval, _⟩
      · exact absurd (hmax p1 hp1 c1 hc1) (by omega)
      · exact ⟨q, cc, hb, hq, hcc, hcval⟩
    obtain ⟨bp, bc, hb, hbp, hbc, hcval⟩ := hbsome
    obtain ⟨dev, hdev⟩ := partsIdx5_of_len6 vault bp (hlen bp hbp)
    have hsel0 : selectBest fs0 ps = some (some bp, c) := by
      rw [selectBest, hfold, hb]
    have hselC : selectBest fsC ps = some (some bp, c) :=
      (selectBest_congr fsC fs0 ps hsame).trans hsel0
    have hcanne : bp ≠ getNewPath sid dev vault := by
      intro he
      have := congrArg List.length he
      rw [hlen bp hbp, getNewPath_length] at this
      omega
    have hcopy : copy2FS fsC bp (getNewPath sid dev vault)
        = some (setFileFS fsC (getNewPath sid dev vault) bc) := by
      rw [copy2FS, if_neg (fun he => hcanne he), hsame bp hbp, hbc]
    set fs1 := setFileFS fsC (getNewPath sid dev vault) bc with hfs1
    have hread1 : ∀ q, readFileFS fs1 q =
        if q = getNewPath sid dev vault then some bc else readFileFS fsC q := by
      intro q
      rw [hfs1, readFileFS_set]
    have hlenne : ∀ p ∈ ps, p ≠ getNewPath sid dev vault := by
      intro p hp he
      have := congrArg List.length he
      rw [hlen p hp, getNewPath_length] at this
      omega
    obtain ⟨fs₂, hmove, hback, hgone, hframe⟩ :=
      moveAllToBackup_spec vault fs1 ps nodup hunder
        (fun p hp => by
          rw [hread1, if_neg (hlenne p hp), hsame p hp]
          exact hread p hp)
    refine ⟨fs₂, bp, bc, dev, ?_, ?_, hbp, hbc, hdev, ?_, ?_, ?_, hgone, ?_⟩
    · simp only [processGroup, if_pos hmulti, hselC, hdev, hcopy]
      exact hmove
    · simp only [keeperOf, if_pos hmulti, hsel0]
    · intro p hp cc hcc
      rw [← hcval]
      exact hmax p hp cc hcc
    · have hnp : getNewPath sid dev vault ∉ ps := by
        intro hmem
        exact hlenne _ hmem rfl
      have hnb : ∀ p ∈ ps, getNewPath sid dev vault ≠ backupPathOf vault p :=
        fun p hp => ne_backupPathOf_of_devices vault p _ (getNewPath_take sid dev vault)
      rw [hframe _ hnp hnb, hread1, if_pos rfl]
    · intro p hp
      rw [hback p hp, hread1, if_neg (hlenne p hp), hsame p hp]
    · intro q hq hqc hqb
      rw [hframe q hq hqb, hread1, if_neg hqc]
  · -- single-file group
    rcases ps with _ | ⟨f, t⟩
    · exact absurd rfl hne
    · rcases t with _ | ⟨f2, t'⟩
      · obtain ⟨bc, hbc⟩ := Option.isSome_iff_exists.mp (hread f (by simp))
        obtain ⟨dev, hdev⟩ := partsIdx5_of_len6 vault f (hlen f (by simp))
        have hcanne : f ≠ getNewPath sid dev vault := by
          intro he
          have := congrArg List.length he
          rw [hlen f (by simp), getNewPath_length] at this
          omega
        have hcopy : copy2FS fsC f (getNewPath sid dev vault)
            = some (setFileFS fsC (getNewPath sid dev vault) bc) := by
          rw [copy2FS, if_neg (fun he => hcanne he), hsame f (by simp), hbc]
        set fs1 := setFileFS fsC (getNewPath sid dev vault) bc with hfs1
        have hread1 : ∀ q, readFileFS fs1 q =
            if q = getNewPath sid dev vault then some bc
            else readFileFS fsC q := by
          intro q
          rw [hfs1, readFileFS_set]
        have hmv : moveFS fs1 f (backupPathOf vault f)
            = some (setFileFS (removeFileFS fs1 f) (backupPathOf vault f) bc) := by
          apply moveFS_eq
          rw [hread1, if_neg hcanne, hsame f (by simp)]
          exact hbc
        set fs₂ := setFileFS (removeFileFS fs1 f) (backupPathOf vault f) bc
          with hfs2
        have hread2 : ∀ q, readFileFS fs₂ q =
            if q = backupPathOf vault f then some bc
            else if q = f then none else readFileFS fs1 q := by
          intro q
          rw [hfs2, readFileFS_set, readFileFS_remove]
        have hfb : f ≠ backupPathOf vault f :=
          ne_backupPathOf_of_devices vault f f (hunder f (by simp))
        have hcb : getNewPath sid dev vault ≠ backupPathOf vault f :=
          ne_backupPathOf_of_devices vault f _ (getNewPath_take sid dev vault)
        refine ⟨fs₂, f, bc, dev, ?_, by simp [keeperOf], by simp, hbc, hdev,
          ?_, ?_, ?_, ?_, ?_⟩
        · simp only [processGroup, if_neg hmulti, hdev, hcopy]
          exact hmv
        · intro p hp cc hcc
          have : p = f := by simpa using hp
          subst this
          rw [hbc] at hcc
          cases hcc
          exact le_refl _
        · rw [hread2, if_neg hcb, if_neg (Ne.symm hcanne), hread1, if_pos rfl]
        · intro p hp
          have : p = f := by simpa using hp
          subst this
          rw [hread2, if_pos rfl, hbc]
        · intro p hp
          have : p = f := by simpa using hp
          subst this
          rw [hread2, if_neg hfb, if_pos rfl]
        · intro q hq hqc hqb
          have hqf : q ≠ f := fun he => hq (by simp [he])
          rw [hread2, if_neg (hqb f (by simp)), if_neg hqf, hread1, if_neg hqc]
      · exact absurd (by simp) hmulti

def gpaths (gs : List (String × List (List String))) : List (List String) :=
  (gs.map Prod.snd).flatten

theorem gpaths_groupInsert (gs : List (String × List (List String)))
    (k : String) (p : List String) :
    List.Perm (gpaths (groupInsert gs k p)) (p :: gpaths gs) := by
  induction gs with
  | nil => simp [groupInsert, gpaths]
  | cons g rest ih =>
    obtain ⟨k', ps⟩ := g
    by_cases hk : k' = k
    · simp only [groupInsert, if_pos hk, gpaths, List.map_cons, List.flatten_cons]
      have h1 : (ps ++ [p]) ++ (rest.map Prod.snd).flatten
          = ps ++ ([p] ++ (rest.map Prod.snd).flatten) := by
        rw [List.append_assoc]
      rw [h1]
      exact List.perm_append_comm_assoc ps [p] _
    · simp only [groupInsert, if_neg hk, gpaths, List.map_cons, List.flatten_cons]
      exact ((ih).append_left ps).trans List.perm_middle

def gStep (gs : List (String × List (List String))) (f : MFile) :
    List (String × List (List String)) :=
  match extractSessionIdLines f.content with
  | some sid => if sid ≠ "" then groupInsert gs sid f.path else gs
  | none => gs

def hasKeyB (f : MFile) : Bool :=
  match extractSessionIdLines f.content with
  | some s => s ≠ ""
  | none => false

def keyedPaths (files : List MFile) : List (List String) :=
  (files.filter hasKeyB).map MFile.path

theorem gpaths_foldl (files : List MFile) :
    ∀ acc, List.Perm (gpaths (files.foldl gStep acc))
      (gpaths acc ++ keyedPaths files) := by
  induction files with
  | nil => intro acc; simp [keyedPaths]
  | cons f rest ih =>
    intro acc
    rw [List.foldl_cons]
    rcases hk : extractSessionIdLines f.content with _ | sid
    · have hstep : gStep acc f = acc := by simp [gStep, hk]
      have hkb : hasKeyB f = false := by simp [hasKeyB, hk]
      rw [hstep]
      simpa [keyedPaths, List.filter_cons, hkb] using ih acc
    · by_cases hs : sid = ""
      · have hstep : gStep acc f = acc := by simp [gStep, hk, hs]
        have hkb : hasKeyB f = false := by simp [hasKeyB, hk, hs]
        rw [hstep]
        simpa [keyedPaths, List.filter_cons, hkb] using ih acc
      · have hstep : gStep acc f = groupInsert acc sid f.path := by
          simp [gStep, hk, hs]
        have hkb : hasKeyB f = true := by simp [hasKeyB, hk, hs]
        rw [hstep]
        have h1 := ih (groupInsert acc sid f.path)
        have h2 : List.Perm (gpaths (groupInsert acc sid f.path) ++ keyedPaths rest)
            ((f.path :: gpaths acc) ++ keyedPaths rest) :=
          (gpaths_groupInsert acc sid f.path).append_right _
        have h3 : (f.path :: gpaths acc) ++ keyedPaths rest
            = f.path :: (gpaths acc ++ keyedPaths rest) := rfl
        have h4 : keyedPaths (f :: rest) = f.path :: keyedPaths rest := by
          simp [keyedPaths, List.filter_cons, hkb]
        rw [h4]
        exact (h1.trans (h2.trans (h3 ▸ List.perm_middle.symm)))

theorem mem_keys_groupInsert (gs : List (String × List (List String)))
    (k : String) (p : List String) (x : String) :
    x ∈ (groupInsert gs k p).map Prod.fst ↔
      x ∈ gs.map Prod.fst ∨ x = k := by
  induction gs with
  | nil => simp [groupInsert]
  | cons g rest ih =>
    obtain ⟨k', ps⟩ := g
    by_cases hk : k' = k
    · subst hk
      simp only [groupInsert, if_pos rfl, List.map_cons]
      constructor
      · intro h
        rcases List.mem_cons.mp h with h | h
        · exact Or.inl (by simp [h])
        · exact Or.inl (by simp [h])
      · intro h
        rcases h with h | h
        · simpa using h
        · simp [h]
    · simp only [groupInsert, if_neg hk, List.map_cons, List.mem_cons, ih]
      tauto

theorem keys_nodup_groupInsert (gs : List (String × List (List String)))
    (k : String) (p : List String) (h : (gs.map Prod.fst).Nodup) :
    ((groupInsert gs k p).map Prod.fst).Nodup := by
  induction gs with
  | nil => simp [groupInsert]
  | cons g rest ih =>
    obtain ⟨k', ps⟩ := g
    simp only [List.map_cons, List.nodup_cons] at h
    by_cases hk : k' = k
    · simp only [groupInsert, if_pos hk, List.map_cons, List.nodup_cons]
      exact h
    · simp only [groupInsert, if_neg hk, List.map_cons, List.nodup_cons]
      refine ⟨?_, ih h.2⟩
      rw [mem_keys_groupInsert]
      rintro (hmem | rfl)
      · exact h.1 hmem
      · exact hk rfl

theorem keys_nodup_foldl (files : List MFile) :
    ∀ acc, (acc.map Prod.fst).Nodup →
      ((files.foldl gStep acc).map Prod.fst).Nodup := by
  induction files with
  | nil => intro acc h; exact h
  | cons f rest ih =>
    intro acc h
    rw [List.foldl_cons]
    apply ih
    unfold gStep
    rcases hk : extractSessionIdLines f.content with _ | sid
    · exact h
    · by_cases hs : sid = "" <;> simp [hs, h, keys_nodup_groupInsert _ _ _ h]

theorem groupInsert_mem (W : String → List String → Prop)
    (gs : List (String × List (List String))) (k : String) (p : List String)
    (hacc : ∀ g ∈ gs, g.1 ≠ "" ∧ g.2 ≠ [] ∧ ∀ q ∈ g.2, W g.1 q)
    (hk : k ≠ "") (hWp : W k p) :
    ∀ g ∈ groupInsert gs k p, g.1 ≠ "" ∧ g.2 ≠ [] ∧ ∀ q ∈ g.2, W g.1 q := by
  induction gs with
  | nil =>
    intro g hg
    simp only [groupInsert, List.mem_singleton] at hg
    subst hg
    exact ⟨hk, by simp, fun q hq => by
      simp only [List.mem_singleton] at hq
      exact hq ▸ hWp⟩
  | cons g0 rest ih =>
    obtain ⟨k0, ps0⟩ := g0
    by_cases hke : k0 = k
    · subst hke
      intro g hg
      simp only [groupInsert, if_pos rfl] at hg
      rcases List.mem_cons.mp hg with rfl | hg
      · obtain ⟨h1, _, h3⟩ := hacc (k0, ps0) (by simp)
        refine ⟨h1, by simp, fun q hq => ?_⟩
        rcases List.mem_append.mp hq with hq | hq
        · exact h3 q hq
        · simp only [List.mem_singleton] at hq
          exact hq ▸ hWp
      · exact hacc g (by simp [hg])
    · intro g hg
      simp only [groupInsert, if_neg hke] at hg
      rcases List.mem_cons.mp hg with he | hg
      · rw [he]
        exact hacc (k0, ps0) (by simp)
      · exact ih (fun g' hg' => hacc g' (by simp [hg'])) g hg

theorem foldl_gStep_mem (W : String → List String → Prop) :
    ∀ (files : List MFile) (acc : List (String × List (List String))),
    (∀ f ∈ files, ∀ sid, extractSessionIdLines f.content = some sid →
      sid ≠ "" → W sid f.path) →
    (∀ g ∈ acc, g.1 ≠ "" ∧ g.2 ≠ [] ∧ ∀ q ∈ g.2, W g.1 q) →
    ∀ g ∈ files.foldl gStep acc, g.1 ≠ "" ∧ g.2 ≠ [] ∧ ∀ q ∈ g.2, W g.1 q := by
  intro files
  induction files with
  | nil => intro acc _ hacc; exact hacc
  | cons f rest ih =>
    intro acc hfiles hacc
    rw [List.foldl_cons]
    apply ih _ (fun f' hf' => hfiles f' (by simp [hf']))
    unfold gStep
    rcases hk : extractSessionIdLines f.content with _ | sid
    · exact hacc
    · by_cases hs : sid = ""
      · subst hs
        show ∀ g ∈ (if ("" : String) ≠ "" then groupInsert acc "" f.path
          else acc), g.1 ≠ "" ∧ g.2 ≠ [] ∧ ∀ q ∈ g.2, W g.1 q
        rw [if_neg (by simp)]
        exact hacc
      · simp only [ne_eq, hs, not_false_iff, if_true]
        exact groupInsert_mem W acc sid f.path hacc hs
          (hfiles f (by simp) sid hk hs)

theorem groupInsert_mem_survive (gs : List (String × List (List String)))
    (k k' : String) (p' q : List String) (ps : List (List String))
    (hg : (k, ps) ∈ gs) (hq : q ∈ ps) :
    ∃ ps', (k, ps') ∈ groupInsert gs k' p' ∧ q ∈ ps' := by
  induction gs with
  | nil => exact absurd hg (by simp)
  | cons g0 rest ih =>
    obtain ⟨k0, ps0⟩ := g0
    by_cases hke : k0 = k'
    · simp only [groupInsert, if_pos hke]
      rcases List.mem_cons.mp hg with he | hg
      · have he1 : k = k0 := congrArg Prod.fst he
        have he2 : ps = ps0 := congrArg Prod.snd he
        refine ⟨ps0 ++ [p'], ?_, List.mem_append.mpr (Or.inl (he2 ▸ hq))⟩
        rw [he1]
        exact List.mem_cons_self _ _
      · exact ⟨ps, List.mem_cons_of_mem _ hg, hq⟩
    · simp only [groupInsert, if_neg hke]
      rcases List.mem_cons.mp hg with he | hg
      · have he1 : k = k0 := congrArg Prod.fst he
        have he2 : ps = ps0 := congrArg Prod.snd he
        refine ⟨ps0, ?_, he2 ▸ hq⟩
        rw [he1]
        exact List.mem_cons_self _ _
      · obtain ⟨ps', hmem, hq'⟩ := ih hg
        exact ⟨ps', List.mem_cons_of_mem _ hmem, hq'⟩

theorem groupInsert_mem_hit (gs : List (String × List (List String)))
    (k : String) (p : List String) :
    ∃ ps', (k, ps') ∈ groupInsert gs k p ∧ p ∈ ps' := by
  induction gs with
  | nil => exact ⟨[p], by simp [groupInsert], by simp⟩
  | cons g0 rest ih =>
    obtain ⟨k0, ps0⟩ := g0
    by_cases hke : k0 = k
    · subst hke
      exact ⟨ps0 ++ [p], by simp [groupInsert], by simp⟩
    · obtain ⟨ps', hmem, hp⟩ := ih
      exact ⟨ps', by simp [groupInsert, hke, hmem], hp⟩

theorem foldl_gStep_survive (files : List MFile) :
    ∀ acc (k : String) (ps : List (List String)) (q : List String),
    (k, ps) ∈ acc → q ∈ ps →
    ∃ ps', (k, ps') ∈ files.foldl gStep acc ∧ q ∈ ps' := by
  induction files with
  | nil => intro acc k ps q hg hq; exact ⟨ps, hg, hq⟩
  | cons f rest ih =>
    intro acc k ps q hg hq
    rw [List.foldl_cons]
    unfold gStep
    rcases hk : extractSessionIdLines f.content with _ | sid
    · exact ih acc k ps q hg hq
    · by_cases hs : sid = ""
      · simp only [ne_eq, hs, not_true, if_neg, if_false, not_false_iff]
        exact ih acc k ps q hg hq
      · simp only [ne_eq, hs, not_false_iff, if_true]
        obtain ⟨ps', hmem, hq'⟩ :=
          groupInsert_mem_survive acc k sid f.path q ps hg hq
        exact ih _ k ps' q hmem hq'

theorem foldl_gStep_complete (files : List MFile) :
    ∀ acc (f : MFile) (sid : String), f ∈ files →
    extractSessionIdLines f.content = some sid → sid ≠ "" →
    ∃ ps, (sid, ps) ∈ files.foldl gStep acc ∧ f.path ∈ ps := by
  induction files with
  | nil => intro acc f sid hf; exact absurd hf (by simp)
  | cons f0 rest ih =>
    intro acc f sid hf hkey hs
    rw [List.foldl_cons]
    rcases List.mem_cons.mp hf with rfl | hf
    · have hstep : gStep acc f = groupInsert acc sid f.path := by
        simp [gStep, hkey, hs]
      rw [hstep]
      obtain ⟨ps', hmem, hp⟩ := groupInsert_mem_hit acc sid f.path
      exact foldl_gStep_survive rest _ sid ps' f.path hmem hp
    · exact ih _ f sid hf hkey hs

theorem nodup_keys_entries (gs : List (String × List (List String)))
    (h : (gs.map Prod.fst).Nodup) (k : String)
    (a b : List (List String)) (ha : (k, a) ∈ gs) (hb : (k, b) ∈ gs) :
    a = b := by
  induction gs with
  | nil => exact absurd ha (by simp)
  | cons g0 rest ih =>
    obtain ⟨k0, ps0⟩ := g0
    simp only [List.map_cons, List.nodup_cons] at h
    rcases List.mem_cons.mp ha with hea | ha
    · have he2 : a = ps0 := congrArg Prod.snd hea
      rcases List.mem_cons.mp hb with heb | hb
      · have he3 : b = ps0 := congrArg Prod.snd heb
        rw [he2, he3]
      · exfalso
        apply h.1
        rw [← show k = k0 from congrArg Prod.fst hea]
        exact List.mem_map.mpr ⟨(k, b), hb, rfl⟩
    · rcases List.mem_cons.mp hb with heb | hb
      · exfalso
        apply h.1
        rw [← show k = k0 from congrArg Prod.fst heb]
        exact List.mem_map.mpr ⟨(k, a), ha, rfl⟩
      · exact ih h.2 ha hb

theorem mem_gpaths (gs : List (String × List (List String)))
    (g : String × List (List String)) (p : List String)
    (hg : g ∈ gs) (hp : p ∈ g.2) : p ∈ gpaths gs := by
  simp only [gpaths, List.mem_flatten]
  exact ⟨g.2, List.mem_map.mpr ⟨g, hg, rfl⟩, hp⟩

theorem readFileFS_eq_of_mem (fs : MFS) (f : MFile)
    (hnodup : (fs.map MFile.path).Nodup) (hf : f ∈ fs) :
    readFileFS fs f.path = some f.content := by
  induction fs with
  | nil => exact absurd hf (by simp)
  | cons f0 rest ih =>
    simp only [List.map_cons, List.nodup_cons] at hnodup
    rcases List.mem_cons.mp hf with rfl | hf
    · simp [readFileFS, List.find?_cons]
    · have hne : ¬ (f0.path = f.path) := by
        intro he
        exact hnodup.1 (he ▸ List.mem_map.mpr ⟨f, hf, rfl⟩)
      simp only [readFileFS, List.find?_cons, decide_eq_true_eq, hne,
        decide_False]
      exact ih hnodup.2 hf

theorem readFileFS_some_mem (fs : MFS) (q : List String) (c : List String)
    (h : readFileFS fs q = some c) :
    ∃ f ∈ fs, f.path = q ∧ f.content = c := by
  simp only [readFileFS, Option.map_eq_some'] at h
  obtain ⟨f, hfind, hc⟩ := h
  refine ⟨f, List.mem_of_find?_eq_some hfind, ?_, hc⟩
  have := List.find?_some hfind
  simpa using this

theorem getNewPath_inj_sid (s s' d d' : String) (vault : List String)
    (h : getNewPath s d vault = getNewPath s' d' vault) : s = s' := by
  have hdrop : ∀ (t e : String) (fo : String),
      (getNewPath t e vault).drop (vault.length + 3) = [t ++ ".md"] := by
    intro t e fo
    show (vault ++ ["Devices", e,
      (if pyStartswith t "unknown" then "unknown" else pyTake 2 t),
      t ++ ".md"]).drop (vault.length + 3) = [t ++ ".md"]
    rw [show vault ++ ["Devices", e,
        (if pyStartswith t "unknown" then "unknown" else pyTake 2 t),
        t ++ ".md"] = (vault ++ ["Devices", e,
        (if pyStartswith t "unknown" then "unknown" else pyTake 2 t)]) ++
        [t ++ ".md"] by simp]
    rw [show vault.length + 3 = (vault ++ ["Devices", e,
        (if pyStartswith t "unknown" then "unknown" else pyTake 2 t)]).length
      by simp]
    exact List.drop_left _ _
  have h2 := congrArg (fun l => List.drop (vault.length + 3) l) h
  simp only [hdrop s d "", hdrop s' d' ""] at h2
  have h3 : s ++ ".md" = s' ++ ".md" := by simpa using h2
  have h4 : s.data ++ ".md".data = s'.data ++ ".md".data := by
    have := congrArg String.data h3
    simpa using this
  have h5 : s.data = s'.data := by
    have hlen : s.data.length = s'.data.length := by
      have := congrArg List.length h4
      rw [List.length_append, List.length_append] at this
      omega
    exact (List.append_inj h4 hlen).1
  cases s with
  | mk d1 =>
    cases s' with
    | mk d2 => exact congrArg String.mk h5

theorem processGroups_spec (vault : List String) (fs0 : MFS) :
    ∀ (gs : List (String × List (List String))) (fsC : MFS),
    (gs.map Prod.fst).Nodup →
    (gpaths gs).Nodup →
    (∀ g ∈ gs, g.2 ≠ []) →
    (∀ g ∈ gs, ∀ p ∈ g.2,
      p.take (vault.length + 1) = vault ++ ["Devices"] ∧
      p.length = vault.length + 6 ∧ (readFileFS fs0 p).isSome) →
    (∀ g ∈ gs, 1 < g.2.length → ∃ p ∈ g.2, ∃ c,
      readFileFS fs0 p = some c ∧ 0 < migrateMsgCount c) →
    (∀ g ∈ gs, ∀ p ∈ g.2, readFileFS fsC p = readFileFS fs0 p) →
    ∃ fs', processGroups vault fsC gs = (fs', false) ∧
      (∀ g ∈ gs, ∃ bp bc dev,
        keeperOf fs0 g.2 = some bp ∧ bp ∈ g.2 ∧
        readFileFS fs0 bp = some bc ∧ partsIdx5 bp = some dev ∧
        (∀ p ∈ g.2, ∀ c, readFileFS fs0 p = some c →
          migrateMsgCount c ≤ migrateMsgCount bc) ∧
        readFileFS fs' (getNewPath g.1 dev vault) = some bc ∧
        (∀ p ∈ g.2, readFileFS fs' (backupPathOf vault p) = readFileFS fs0 p) ∧
        (∀ p ∈ g.2, readFileFS fs' p = none)) ∧
      (∀ q, readFileFS fs' q = readFileFS fsC q ∨
        (∃ g ∈ gs, q ∈ g.2) ∨
        (∃ g ∈ gs, ∃ p ∈ g.2, q = backupPathOf vault p) ∨
        (∃ g ∈ gs, ∃ bp bc dev, keeperOf fs0 g.2 = some bp ∧
          readFileFS fs0 bp = some bc ∧ partsIdx5 bp = some dev ∧
          q = getNewPath g.1 dev vault ∧ readFileFS fs' q = some bc)) := by
  intro gs
  induction gs with
  | nil =>
    intro fsC _ _ _ _ _ _
    exact ⟨fsC, rfl, by simp, fun q => Or.inl rfl⟩
  | cons g rest ih =>
    obtain ⟨sid, ps⟩ := g
    intro fsC hkeys hnd hne hW hpos hsame
    simp only [List.map_cons] at hkeys
    obtain ⟨hsid_nmem, hkeys'⟩ := List.nodup_cons.mp hkeys
    have hgp : gpaths ((sid, ps) :: rest) = ps ++ gpaths rest := by
      simp [gpaths]
    rw [hgp] at hnd
    obtain ⟨ndps, ndrest, disj⟩ := List.nodup_append.mp hnd
    obtain ⟨fs₂, bp, bc, dev, hpg, hkeep, hbp, hbc, hdev, hmax, hcan2, hback2,
        hgone2, hframe2⟩ :=
      processGroup_spec vault fs0 fsC sid ps ndps (hne (sid, ps) (by simp))
        (fun p hp => (hW (sid, ps) (by simp) p hp).1)
        (fun p hp => (hW (sid, ps) (by simp) p hp).2.1)
        (fun p hp => hsame (sid, ps) (by simp) p hp)
        (fun p hp => (hW (sid, ps) (by simp) p hp).2.2)
        (fun h => hpos (sid, ps) (by simp) h)
    have hsame' : ∀ g' ∈ rest, ∀ p ∈ g'.2,
        readFileFS fs₂ p = readFileFS fs0 p := by
      intro g' hg' p hp
      have hnot : p ∉ ps := fun hmem =>
        disj hmem (mem_gpaths rest g' p hg' hp)
      have hlenp : p.length = vault.length + 6 :=
        (hW g' (by simp [hg']) p hp).2.1
      have hnec : p ≠ getNewPath sid dev vault := by
        intro he
        have := congrArg List.length he
        rw [hlenp, getNewPath_length] at this
        omega
      have hneb : ∀ p' ∈ ps, p ≠ backupPathOf vault p' := fun p' _ =>
        ne_backupPathOf_of_devices vault p' p (hW g' (by simp [hg']) p hp).1
      exact (hframe2 p hnot hnec hneb).trans (hsame g' (by simp [hg']) p hp)
    obtain ⟨fs', hpgs, hgroups', hframe'⟩ := ih fs₂ hkeys' ndrest
      (fun g' hg' => hne g' (by simp [hg']))
      (fun g' hg' => hW g' (by simp [hg']))
      (fun g' hg' => hpos g' (by simp [hg']))
      hsame'
    refine ⟨fs', ?_, ?_, ?_⟩
    · simp only [processGroups, hpg]
      exact hpgs
    · intro g' hg'
      rcases List.mem_cons.mp hg' with he | hg'
      · rw [he]
        refine ⟨bp, bc, dev, hkeep, hbp, hbc, hdev, hmax, ?_, ?_, ?_⟩
        · rcases hframe' (getNewPath sid dev vault) with h1 | h2 | h3 | h4
          · rw [h1]
            exact hcan2
          · obtain ⟨g'', hg'', hq⟩ := h2
            have hlq : (getNewPath sid dev vault).length = vault.length + 6 :=
              (hW g'' (by simp [hg'']) _ hq).2.1
            rw [getNewPath_length] at hlq
            omega
          · obtain ⟨g'', hg'', p', hp', he'⟩ := h3
            exact absurd he'
              (ne_backupPathOf_of_devices vault p' _ (getNewPath_take sid dev vault))
          · obtain ⟨g'', hg'', bp', bc', dev', _, _, _, he', _⟩ := h4
            have hss : sid = g''.1 := getNewPath_inj_sid _ _ _ _ vault he'
            exact absurd (List.mem_map.mpr ⟨g'', hg'', hss.symm⟩) hsid_nmem
        · intro p hp
          rcases hframe' (backupPathOf vault p) with h1 | h2 | h3 | h4
          · rw [h1]
            exact hback2 p hp
          · obtain ⟨g'', hg'', hq⟩ := h2
            exact absurd rfl
              (ne_backupPathOf_of_devices vault p _ (hW g'' (by simp [hg'']) _ hq).1)
          · obtain ⟨g'', hg'', p'', hp'', he'⟩ := h3
            have : p = p'' := backupPathOf_inj vault p p''
              ((hW (sid, ps) (by simp) p hp).1)
              ((hW g'' (by simp [hg'']) p'' hp'').1) he'
            exact absurd (mem_gpaths rest g'' p'' hg'' hp'')
              (fun hm => disj (this ▸ hp) hm)
          · obtain ⟨g'', hg'', bp', bc', dev', _, _, _, he', _⟩ := h4
            exact absurd he'.symm
              (ne_backupPathOf_of_devices vault p _ (getNewPath_take g''.1 dev' vault))
        · intro p hp
          rcases hframe' p with h1 | h2 | h3 | h4
          · rw [h1]
            exact hgone2 p hp
          · obtain ⟨g'', hg'', hq⟩ := h2
            exact absurd (mem_gpaths rest g'' p hg'' hq) (fun hm => disj hp hm)
          · obtain ⟨g'', hg'', p'', hp'', he'⟩ := h3
            exact absurd he'
              (ne_backupPathOf_of_devices vault p'' p (hW (sid, ps) (by simp) p hp).1)
          · obtain ⟨g'', hg'', bp', bc', dev', _, _, _, he', _⟩ := h4
            have hlp : p.length = vault.length + 6 :=
              (hW (sid, ps) (by simp) p hp).2.1
            have := congrArg List.length he'
            rw [hlp, getNewPath_length] at this
            omega
      · obtain ⟨bp', bc', dev', h1, h2, h3, h4, h5, h6, h7, h8⟩ :=
          hgroups' g' hg'
        exact ⟨bp', bc', dev', h1, h2, h3, h4, h5, h6, h7, h8⟩
    · intro q
      rcases hframe' q with h1 | h2 | h3 | h4
      · by_cases hq2 : q ∈ ps
        · exact Or.inr (Or.inl ⟨(sid, ps), by simp, hq2⟩)
        · by_cases hq3 : ∃ p ∈ ps, q = backupPathOf vault p
          · obtain ⟨p, hp, he⟩ := hq3
            exact Or.inr (Or.inr (Or.inl ⟨(sid, ps), by simp, p, hp, he⟩))
          · by_cases hq4 : q = getNewPath sid dev vault
            · refine Or.inr (Or.inr (Or.inr ⟨(sid, ps), by simp, bp, bc, dev,
                hkeep, hbc, hdev, hq4, ?_⟩))
              rw [h1, hq4]
              exact hcan2
            · refine Or.inl (h1.trans
                (hframe2 q hq2 hq4 (fun p hp he => hq3 ⟨p, hp, he⟩)))
      · obtain ⟨g'', hg'', hq⟩ := h2
        exact Or.inr (Or.inl ⟨g'', by simp [hg''], hq⟩)
      · obtain ⟨g'', hg'', p', hp', he'⟩ := h3
        exact Or.inr (Or.inr (Or.inl ⟨g'', by simp [hg''], p', hp', he'⟩))
      · obtain ⟨g'', hg'', bp', bc', dev', ha, hb, hc, hd, hee⟩ := h4
        exact Or.inr (Or.inr (Or.inr ⟨g'', by simp [hg''], bp', bc', dev',
          ha, hb, hc, hd, hee⟩))

/-- C4 (amended): the 1:1 invariant holds only under preconditions the
claim omits. On a tree with distinct file paths, in which every file under
`Devices` is an old-layout `.md` artifact (path length `vault+6`) and every
keyed artifact parses a positive `message_count`, the run completes and,
for each recorded session key, exactly one artifact carrying that key
remains under `Devices` — at the canonical path built from the keeper's
device — whose content is a maximal-`message_count` member of the group;
every original of the group (the kept one included) survives verbatim
under the backup location. -/
theorem C4_consolidation_amended (vault : List String) (fs : MFS)
    (hnodup : (fs.map MFile.path).Nodup)
    (hlayout : ∀ f ∈ fs, pathUnder (vault ++ ["Devices"]) f.path = true →
      f.path.length = vault.length + 6 ∧
      pyEndswith (f.path.getLastD "") ".md" = true)
    (hposf : ∀ f ∈ fs, pathUnder (vault ++ ["Devices"]) f.path = true →
      hasKeyB f = true → 0 < migrateMsgCount f.content) :
    ∃ fs', runMigrate vault fs = (fs', false) ∧
      ∀ sid ps, (sid, ps) ∈ groupBySid (allMdFiles vault fs) →
        ∃ bp bc dev, bp ∈ ps ∧ readFileFS fs bp = some bc ∧
          extractSessionIdLines bc = some sid ∧ partsIdx5 bp = some dev ∧
          (∀ p ∈ ps, ∀ c, readFileFS fs p = some c →
            migrateMsgCount c ≤ migrateMsgCount bc) ∧
          readFileFS fs' (getNewPath sid dev vault) = some bc ∧
          (∀ p ∈ ps, readFileFS fs' (backupPathOf vault p) = readFileFS fs p) ∧
          (∀ p ∈ ps, readFileFS fs' p = none) ∧
          (∀ q c, pathUnder (vault ++ ["Devices"]) q = true →
            readFileFS fs' q = some c → extractSessionIdLines c = some sid →
            q = getNewPath sid dev vault) := by
  have hfile_mem : ∀ f ∈ allMdFiles vault fs, f ∈ fs ∧
      pathUnder (vault ++ ["Devices"]) f.path = true ∧
      pyEndswith (f.path.getLastD "") ".md" = true := by
    intro f hf
    simp only [allMdFiles, List.mem_filter, decide_eq_true_eq] at hf
    exact ⟨hf.1, hf.2.1, hf.2.2⟩
  have htakeP : ∀ p : List String, pathUnder (vault ++ ["Devices"]) p = true →
      p.take (vault.length + 1) = vault ++ ["Devices"] := by
    intro p h
    simp only [pathUnder, decide_eq_true_eq] at h
    rw [show (vault ++ ["Devices"]).length = vault.length + 1 by simp] at h
    exact h
  have hread_files : ∀ f ∈ allMdFiles vault fs,
      readFileFS fs f.path = some f.content := fun f hf =>
    readFileFS_eq_of_mem fs f hnodup (hfile_mem f hf).1
  have hmem_spec : ∀ g ∈ groupBySid (allMdFiles vault fs),
      g.1 ≠ "" ∧ g.2 ≠ [] ∧ ∀ p ∈ g.2, ∃ f ∈ allMdFiles vault fs,
        f.path = p ∧ extractSessionIdLines f.content = some g.1 :=
    foldl_gStep_mem
      (fun sid p => ∃ f ∈ allMdFiles vault fs, f.path = p ∧
        extractSessionIdLines f.content = some sid)
      (allMdFiles vault fs) []
      (fun f hf sid hk _ => ⟨f, hf, rfl, hk⟩) (by simp)
  have hkeys : ((groupBySid (allMdFiles vault fs)).map Prod.fst).Nodup :=
    keys_nodup_foldl (allMdFiles vault fs) [] (by simp)
  have hkp : (keyedPaths (allMdFiles vault fs)).Nodup := by
    have s1 : List.Sublist
        (((allMdFiles vault fs).filter hasKeyB).map MFile.path)
        ((allMdFiles vault fs).map MFile.path) :=
      (List.filter_sublist (allMdFiles vault fs)).map MFile.path
    have s2 : List.Sublist ((allMdFiles vault fs).map MFile.path)
        (fs.map MFile.path) :=
      (List.filter_sublist fs).map MFile.path
    exact List.Nodup.sublist (s1.trans s2) hnodup
  have hnd : (gpaths (groupBySid (allMdFiles vault fs))).Nodup := by
    have hperm := gpaths_foldl (allMdFiles vault fs) []
    have : gpaths ([] : List (String × List (List String))) = [] := by
      simp [gpaths]
    rw [this, List.nil_append] at hperm
    exact hperm.nodup_iff.mpr hkp
  have hW : ∀ g ∈ groupBySid (allMdFiles vault fs), ∀ p ∈ g.2,
      p.take (vault.length + 1) = vault ++ ["Devices"] ∧
      p.length = vault.length + 6 ∧ (readFileFS fs p).isSome := by
    intro g hg p hp
    obtain ⟨f, hf, rfl, hkey⟩ := (hmem_spec g hg).2.2 p hp
    refine ⟨htakeP f.path (hfile_mem f hf).2.1,
      (hlayout f (hfile_mem f hf).1 (hfile_mem f hf).2.1).1, ?_⟩
    rw [hread_files f hf]
    rfl
  have hpos : ∀ g ∈ groupBySid (allMdFiles vault fs), 1 < g.2.length →
      ∃ p ∈ g.2, ∃ c, readFileFS fs p = some c ∧ 0 < migrateMsgCount c := by
    intro g hg _
    obtain ⟨hk1, hk2, hk3⟩ := hmem_spec g hg
    obtain ⟨p, hp⟩ := List.exists_mem_of_ne_nil _ hk2
    obtain ⟨f, hf, rfl, hkey⟩ := hk3 p hp
    refine ⟨f.path, hp, f.content, hread_files f hf, ?_⟩
    exact hposf f (hfile_mem f hf).1 (hfile_mem f hf).2.1
      (by simp [hasKeyB, hkey, hk1])
  obtain ⟨fs', hrun, hgroups, hframe⟩ :=
    processGroups_spec vault fs (groupBySid (allMdFiles vault fs)) fs
      hkeys hnd (fun g hg => (hmem_spec g hg).2.1) hW hpos
      (fun _ _ _ _ => rfl)
  refine ⟨fs', hrun, ?_⟩
  intro sid ps hgsps
  obtain ⟨bp, bc, dev, hkeep, hbp, hbc0, hdev, hmax0, hcanon, hback, hgone⟩ :=
    hgroups (sid, ps) hgsps
  obtain ⟨f, hf, hfp, hkey⟩ := (hmem_spec (sid, ps) hgsps).2.2 bp hbp
  have hbcf : bc = f.content := by
    have h := hread_files f hf
    rw [hfp, hbc0] at h
    exact Option.some.inj h
  have hkeybc : extractSessionIdLines bc = some sid := by
    rw [hbcf]
    exact hkey
  have hsid_ne : sid ≠ "" := (hmem_spec (sid, ps) hgsps).1
  refine ⟨bp, bc, dev, hbp, hbc0, hkeybc, hdev, hmax0, hcanon, hback, hgone,
    ?_⟩
  intro q c hqD hqread hqkey
  have hqtake : q.take (vault.length + 1) = vault ++ ["Devices"] :=
    htakeP q hqD
  rcases hframe q with h1 | h2 | h3 | h4
  · have hq0 : readFileFS fs q = some c := h1.symm.trans hqread
    obtain ⟨f', hf', hfp', hfc'⟩ := readFileFS_some_mem fs q c hq0
    have hund : pathUnder (vault ++ ["Devices"]) f'.path = true := by
      rw [hfp']
      exact hqD
    have hf'files : f' ∈ allMdFiles vault fs := by
      simp only [allMdFiles, List.mem_filter, decide_eq_true_eq]
      exact ⟨hf', hund, (hlayout f' hf' hund).2⟩
    have hkey' : extractSessionIdLines f'.content = some sid := by
      rw [hfc']
      exact hqkey
    obtain ⟨ps', hmem', hqin⟩ :=
      foldl_gStep_complete (allMdFiles vault fs) [] f' sid hf'files hkey'
        hsid_ne
    have hps' : ps' = ps := nodup_keys_entries _ hkeys sid ps' ps hmem' hgsps
    rw [hps', hfp'] at hqin
    rw [hgone q hqin] at hqread
    cases hqread
  · obtain ⟨g'', hg'', hq⟩ := h2
    obtain ⟨_, _, _, _, _, _, _, _, _, _, hgone''⟩ := hgroups g'' hg''
    rw [hgone'' q hq] at hqread
    cases hqread
  · obtain ⟨g'', hg'', p', hp', he⟩ := h3
    exact absurd he (ne_backupPathOf_of_devices vault p' q hqtake)
  · obtain ⟨g'', hg'', bp', bc', dev', hkeep', hbc', hdev', he, hread'⟩ := h4
    obtain ⟨bpg, bcg, devg, hkeepg, hbpg, hbcg, hdevg, _, _, _, _⟩ :=
      hgroups g'' hg''
    have hbpe : bp' = bpg := Option.some.inj (hkeep'.symm.trans hkeepg)
    have hbce : bc' = bcg := by
      rw [hbpe] at hbc'
      exact Option.some.inj (hbc'.symm.trans hbcg)
    have hdeve : dev' = devg := by
      rw [hbpe] at hdev'
      exact Option.some.inj (hdev'.symm.trans hdevg)
    obtain ⟨f'', hf'', hfp'', hkey''⟩ := (hmem_spec g'' hg'').2.2 bpg hbpg
    have hbcgf : bcg = f''.content := by
      have h := hread_files f'' hf''
      rw [hfp'', hbcg] at h
      exact Option.some.inj h
    have hce : c = bc' := Option.some.inj (hqread.symm.trans hread')
    have hsids : g''.1 = sid := by
      have h := hqkey
      rw [hce, hbce, hbcgf] at h
      rw [hkey''] at h
      exact Option.some.inj h
    have hgmem : (sid, g''.2) ∈ groupBySid (allMdFiles vault fs) := by
      rw [← hsids]
      exact hg''
    have hps : g''.2 = ps :=
      nodup_keys_entries _ hkeys sid g''.2 ps hgmem hgsps
    have hbpe2 : bpg = bp := by
      rw [hps] at hkeepg
      exact Option.some.inj (hkeepg.symm.trans hkeep)
    have hdeve2 : devg = dev := by
      rw [hbpe2] at hdevg
      exact Option.some.inj (hdevg.symm.trans hdev)
    rw [he, hsids, hdeve, hdeve2]

def c4Vault : List String := ["/", "data", "V"]

def c4F1 : MFile :=
  ⟨c4Vault ++ ["Devices", "devA", "2024", "01", "02", "abc123.md"],
   ["---", "session_id: abc123", "message_count: 0", "---", "bodyA"]⟩

def c4F2 : MFile :=
  ⟨c4Vault ++ ["Devices", "devB", "2024", "01", "03", "abc123.md"],
   ["---", "session_id: abc123", "message_count: 0", "---", "bodyB"]⟩

def c4FS : MFS := [c4F1, c4F2]

/-- C4 counterexample: over an arbitrary artifact tree the 1:1 invariant
fails — a duplicate group in which no file parses a positive
`message_count` leaves `best_file = None`, the unguarded
`best_file.name` dereference raises, the run aborts, and both
same-key duplicates survive under `Devices`. -/
theorem C4_consolidation_counterexample :
    runMigrate c4Vault c4FS = (c4FS, true) ∧
    (artifactsWithKey c4Vault c4FS "abc123").length = 2 :=
  ⟨by decide, by decide⟩

def c4wVault : List String := ["/", "data", "W"]

def c4wF1 : MFile :=
  ⟨c4wVault ++ ["Devices", "devA", "2024", "01", "02", "abc123.md"],
   ["---", "session_id: abc123", "message_count: 4", "---", "bodyA"]⟩

def c4wF2 : MFile :=
  ⟨c4wVault ++ ["Devices", "devB", "2024", "01", "03", "abc123.md"],
   ["---", "session_id: abc123", "message_count: 9", "---", "bodyB"]⟩

def c4wFS : MFS := [c4wF1, c4wF2]

/-- Witness for C4's amended statement on the spec's own scenario: two
legacy artifacts for `abc123` with message counts 4 and 9 (both
positive), distinct old-layout paths. -/
theorem C4_consolidation_amended_witness :
    ((c4wFS.map MFile.path).Nodup ∧
     (∀ f ∈ c4wFS, pathUnder (c4wVault ++ ["Devices"]) f.path = true →
       f.path.length = c4wVault.length + 6 ∧
       pyEndswith (f.path.getLastD "") ".md" = true) ∧
     (∀ f ∈ c4wFS, pathUnder (c4wVault ++ ["Devices"]) f.path = true →
       hasKeyB f = true → 0 < migrateMsgCount f.content)) ∧
    (∃ fs', runMigrate c4wVault c4wFS = (fs', false) ∧
      ∀ sid ps, (sid, ps) ∈ groupBySid (allMdFiles c4wVault c4wFS) →
        ∃ bp bc dev, bp ∈ ps ∧ readFileFS c4wFS bp = some bc ∧
          extractSessionIdLines bc = some sid ∧ partsIdx5 bp = some dev ∧
          (∀ p ∈ ps, ∀ c, readFileFS c4wFS p = some c →
            migrateMsgCount c ≤ migrateMsgCount bc) ∧
          readFileFS fs' (getNewPath sid dev c4wVault) = some bc ∧
          (∀ p ∈ ps, readFileFS fs' (backupPathOf c4wVault p) =
            readFileFS c4wFS p) ∧
          (∀ p ∈ ps, readFileFS fs' p = none) ∧
          (∀ q c, pathUnder (c4wVault ++ ["Devices"]) q = true →
            readFileFS fs' q = some c → extractSessionIdLines c = some sid →
            q = getNewPath sid dev c4wVault)) :=
  ⟨⟨by decide, by decide, by decide⟩,
   C4_consolidation_amended c4wVault c4wFS (by decide) (by decide)
     (by decide)⟩

end CCB
